import Mathlib

/-!
A shallow embedding of the `hypod` configuration framework
(`src/hypod/decor.py`, `src/hypod/parser.py`) and proofs about it.

Modelling conventions:
* Python runtime values are the inductive `Val`; Python `dict`s are
  association lists (`Entries`) with unique keys, insertion-ordered,
  exactly as Python dicts behave.  The `dataclasses.MISSING` sentinel is
  `Val.missing`.
* Python classes live in a class table `ClsTable` mapping a class name to
  its definition (`ClsDef`): qualified name, first base class, the
  `_HYPOD` marker, its dataclass fields and its `_subclasses` registry.
* Exceptions are modelled with `Except Err`; in-place mutation of a dict
  argument (`new_val_dict.pop("_tag")`) is modelled by state passing: the
  function returns the caller's dict as it is after the call.
* `eval` (used by `TypeCheckedDescriptor.__set__` to parse stringified
  values) is an oracle parameter `ev : String → Except Err Val`.
* The mutually recursive construction/assignment/replace machinery is
  given a fuel parameter (`Nat`); exhaustion yields the artificial error
  `Err.fuelOut`, which cannot occur in Python.
-/

namespace Hypod

mutual

/-- Python runtime values: strings, integers, dicts, hypod/dataclass
instances (class name plus attribute slots), opaque instances of a plain
class built with a single constructor argument (`target_cls(self)` in
`make`), and the `dataclasses.MISSING` sentinel. -/
inductive Val where
  | str (s : String)
  | int (n : Int)
  | dict (entries : Entries)
  | inst (cls : String) (slots : Entries)
  | built (cls : String) (arg : Val)
  | missing
deriving DecidableEq, Repr

/-- Association list representing a Python `dict` (string keys, `Val`
values), insertion-ordered with unique keys. -/
inductive Entries where
  | nil
  | cons (key : String) (v : Val) (rest : Entries)
deriving DecidableEq, Repr

end

/-- `d[k]` lookup (first matching key; keys are unique by construction). -/
def alookup : Entries → String → Option Val
  | .nil, _ => none
  | .cons k v rest, key => if k = key then some v else alookup rest key

/-- `d[k] = v` Python dict assignment: replaces the value in place when the
key is present, otherwise appends at the end (Python insertion order). -/
def ainsert : Entries → String → Val → Entries
  | .nil, key, v => .cons key v .nil
  | .cons k w rest, key, v =>
      if k = key then .cons k v rest else .cons k w (ainsert rest key v)

/-- `d.pop(k)`: removes the entry for `k`, keeping the order of the rest. -/
def apop : Entries → String → Entries
  | .nil, _ => .nil
  | .cons k v rest, key => if k = key then rest else .cons k v (apop rest key)

/-- The keys of a dict, in order. -/
def akeys : Entries → List String
  | .nil => []
  | .cons k _ rest => k :: akeys rest

/-- `k in d`. -/
def amem (d : Entries) (key : String) : Bool :=
  (alookup d key).isSome

mutual

/-- Declared (annotated) types, as the framework inspects them with
`get_origin`/`get_args`: `str`, `int`, `dict`, a class reference by name,
or a `Union[...]` of member types. -/
inductive Ty where
  | tstr
  | tint
  | tdict
  | cls (name : String)
  | union (args : TyList)
deriving DecidableEq, Repr

inductive TyList where
  | nil
  | cons (t : Ty) (rest : TyList)
deriving DecidableEq, Repr

end

/-- `t in get_args(union)` membership test. -/
def tyMem (t : Ty) : TyList → Bool
  | .nil => false
  | .cons t' rest => t == t' || tyMem t rest

/-- A dataclass field as the framework sees it: name, annotated type,
default value (`Val.missing` when the field is required) and the dataclass
`init` flag. -/
structure FieldDef where
  name : String
  ty : Ty
  default : Val
  init : Bool
deriving DecidableEq, Repr

/-- A class definition: `__qualname__` split on dots, the first base class
(`none` means `object`), the `_HYPOD` marker (set by the `hypod`
decorator on a dataclass), the dataclass fields (in declaration order,
inherited fields included), and the `_subclasses` tag registry
(tag -> class name). -/
structure ClsDef where
  qualname : List String
  parent : Option String
  isHypod : Bool
  fields : List FieldDef
  subclasses : List (String × String)
deriving DecidableEq, Repr

/-- All declared classes, keyed by a unique class name. -/
def ClsTable := List (String × ClsDef)

def lookupCls : ClsTable → String → Option ClsDef
  | [], _ => none
  | (n, cd) :: rest, name => if n = name then some cd else lookupCls rest name

/-- Registry lookup (`_subclasses[tag]`). -/
def rlookup : List (String × String) → String → Option String
  | [], _ => none
  | (k, v) :: rest, key => if k = key then some v else rlookup rest key

/-- Registry assignment (`_subclasses[tag] = subcls`), Python dict
semantics: overwrite in place or append. -/
def rinsert : List (String × String) → String → String → List (String × String)
  | [], key, v => [(key, v)]
  | (k, w) :: rest, key, v =>
      if k = key then (k, v) :: rest else (k, w) :: rinsert rest key v

/-- `is_hypod(datacls)` for a class name: the class carries the `_HYPOD`
marker (and is a dataclass). -/
def isHypodCls (tbl : ClsTable) (name : String) : Bool :=
  match lookupCls tbl name with
  | some cd => cd.isHypod
  | none => false

/-- `is_hypod` lifted to an annotated type: true only for a class
reference to a hypod class. -/
def is_hypod (tbl : ClsTable) : Ty → Bool
  | .cls n => isHypodCls tbl n
  | _ => false

/-- Auxiliary for `is_union_of_hypod`: `any(is_hypod(arg) for arg in args)`. -/
def anyHypod (tbl : ClsTable) : TyList → Bool
  | .nil => false
  | .cons t rest => is_hypod tbl t || anyHypod tbl rest

/-- `is_union_of_hypod(datacls)`: a `Union` with at least one hypod member. -/
def is_union_of_hypod (tbl : ClsTable) : Ty → Bool
  | .union args => anyHypod tbl args
  | _ => false

/-- `is_union_of(basetype, datacls)`: `datacls` is a `Union` having
`basetype` among its arguments. -/
def is_union_of (basetype : Ty) : Ty → Bool
  | .union args => tyMem basetype args
  | _ => false

/-- `type(v)` as a class name (`type(curr_val)` in the resolver). -/
def pyType : Val → String
  | .str _ => "str"
  | .int _ => "int"
  | .dict _ => "dict"
  | .inst c _ => c
  | .built c _ => c
  | .missing => "_MISSING_TYPE"

/-- `issubclass` via the (single-inheritance) parent chain; fuel-bounded
walk of the chain. -/
def isSubclassAux (tbl : ClsTable) : Nat → String → String → Bool
  | 0, _, _ => false
  | fuel+1, a, b =>
      a = b ||
      match lookupCls tbl a with
      | some cd =>
          match cd.parent with
          | some p => isSubclassAux tbl fuel p b
          | none => false
      | none => false

def isSubclass (tbl : ClsTable) (a b : String) : Bool :=
  isSubclassAux tbl (tbl.length + 1) a b

mutual

/-- Structural type check of a value against an annotated type, as
`typeguard.check_type` behaves on this universe of types: primitives by
kind, class references by `isinstance` (subclasses included), unions when
some member accepts the value. -/
def checkType (tbl : ClsTable) (v : Val) : Ty → Bool
  | .tstr => match v with | .str _ => true | _ => false
  | .tint => match v with | .int _ => true | _ => false
  | .tdict => match v with | .dict _ => true | _ => false
  | .cls n =>
      match v with
      | .inst c _ => isSubclass tbl c n
      | .built c _ => isSubclass tbl c n
      | _ => false
  | .union args => checkTypeAny tbl v args

def checkTypeAny (tbl : ClsTable) (v : Val) : TyList → Bool
  | .nil => false
  | .cons t rest => checkType tbl v t || checkTypeAny tbl v rest

end

/-- Python exceptions raised by the framework.  The spec gives them
abstract names (`DuplicateTagError`, `AmbiguousUnionError`, ...): in the
code they are `ValueError`/`KeyError`/`TypeError`/`AttributeError`/
`typeguard.TypeCheckError` with a message.  `fuelOut` is an artifact of
the fuel-bounded embedding and corresponds to no Python behaviour. -/
inductive Err where
  | valueError (msg : String)
  | keyError (key : String)
  | typeError (msg : String)
  | attributeError (name : String)
  | typeCheckError (msg : String)
  | nameError (msg : String)
  | fuelOut
deriving DecidableEq, Repr

/-! ## Error messages (abbreviated forms of the f-strings in the source) -/

def notHypodFieldMsg (field_name : String) : String :=
  field_name ++ " is not a Hypod field"

def ambiguousUnionMsg (field_name : String) : String :=
  "A dict is given to construct Hypod field " ++ field_name ++
    " without a _tag key, while no default value has been set. " ++
    "Since the attribute type annotation is Union, its class cannot be determined."

def missingValueMsg (name : String) : String :=
  "Default value is not defined for the field " ++ name ++ ". Please provide a value."

def typeMismatchMsg (name : String) : String :=
  "The value given for the field " ++ name ++
    " is not compatible with the annotated type."

def initFalseMsg (name : String) : String :=
  "field " ++ name ++ " is declared with init=False, " ++
    "it cannot be specified with hypod_replace()"

def replaceTypeMsg : String :=
  "hypod replace() should be called on hypod instances"

def duplicateTagsMsg : String := "The type has duplicate tags"

def unionDictMsg : String :=
  "Hypod class can be constructed from dict, " ++
    "and thus making a Union with dict is prohibited."

def strUnionWarning (name : String) : String :=
  "The field " ++ name ++ " accepts str type, which arises ambiguity " ++
    "in parsing stringified objects. Here, the value will be force-treated as plain str."

def noTargetMsg : String :=
  "Unknown target. The outer class of the current or the parent hypod is not defined."

def nonHypodParentMsg (c : String) : String :=
  "Hypod " ++ c ++ " is inheriting a non-Hypod class"

def duplicateSubclassMsg (tag : String) (c : String) : String :=
  "The subclass tagged " ++ tag ++ " already exists for " ++ c

def argvFormatMsg (a : String) : String :=
  "argv " ++ a ++ " should be of the form foo.bar=baz"

def unexpectedKwargMsg : String := "unexpected keyword argument"

def missingArgMsg : String := "missing required argument"

/-! ## Variant resolution (`infer_new_hypod_cls`, decor.py 32-65) -/

/-- The `_subclasses` registry of a class. -/
def subclassesOf (tbl : ClsTable) (n : String) : List (String × String) :=
  match lookupCls tbl n with
  | some cd => cd.subclasses
  | none => []

/-- Insert all entries of a registry into an accumulator, Python dict
semantics (later entries overwrite earlier ones). -/
def rinsertAll (acc : List (String × String)) :
    List (String × String) → List (String × String)
  | [] => acc
  | (k, v) :: rest => rinsertAll (rinsert acc k v) rest

/-- The `_all_subclasses` dict comprehension of the union branch: merge
the `_subclasses` dicts of all hypod members of the union, in member
order. -/
def mergedSubclassesAux (tbl : ClsTable) (acc : List (String × String)) :
    TyList → List (String × String)
  | .nil => acc
  | .cons t rest =>
      match t with
      | .cls n =>
          if isHypodCls tbl n then
            mergedSubclassesAux tbl (rinsertAll acc (subclassesOf tbl n)) rest
          else mergedSubclassesAux tbl acc rest
      | _ => mergedSubclassesAux tbl acc rest

def mergedSubclasses (tbl : ClsTable) (args : TyList) : List (String × String) :=
  mergedSubclassesAux tbl [] args

/-- `infer_new_hypod_cls(field_name, annotated_cls, curr_val, new_val_dict)`
(decor.py 32-65).  Returns the resolved concrete class name together with
the caller's dict as it is after the call (the source pops `_tag` from
the very dict object it was given, so the pop is visible to the caller).
A `_tag` value that is not a string, or a tag absent from the applicable
registry, is a `KeyError` of the `_subclasses` dict subscript. -/
def infer_new_hypod_cls (tbl : ClsTable) (field_name : String) (annotated_cls : Ty)
    (curr_val : Val) (new_val_dict : Entries) : Except Err (String × Entries) :=
  if is_hypod tbl annotated_cls then
    match annotated_cls with
    | .cls n =>
        match alookup new_val_dict "_tag" with
        | some (.str tag) =>
            match rlookup (subclassesOf tbl n) tag with
            | some sub => .ok (sub, apop new_val_dict "_tag")
            | none => .error (.keyError tag)
        | some _ => .error (.keyError "_tag")
        | none =>
            if curr_val = Val.missing then .ok (n, new_val_dict)
            else .ok (pyType curr_val, new_val_dict)
    | _ => .error (.valueError (notHypodFieldMsg field_name))
  else if is_union_of_hypod tbl annotated_cls then
    match annotated_cls with
    | .union args =>
        match alookup new_val_dict "_tag" with
        | some (.str tag) =>
            match rlookup (mergedSubclasses tbl args) tag with
            | some sub => .ok (sub, apop new_val_dict "_tag")
            | none => .error (.keyError tag)
        | some _ => .error (.keyError "_tag")
        | none =>
            if curr_val = Val.missing then
              .error (.valueError (ambiguousUnionMsg field_name))
            else .ok (pyType curr_val, new_val_dict)
    | _ => .error (.valueError (notHypodFieldMsg field_name))
  else .error (.valueError (notHypodFieldMsg field_name))

/-! ## The field descriptor (`TypeCheckedDescriptor`, decor.py 112-209) -/

structure TypeCheckedDescriptor where
  name : String
  default : Val
  datacls : Ty
  allow_parsing : Bool
  update_if_hypod : Bool
  strict_type_checking : Bool
deriving DecidableEq, Repr

/-- The duplicate-tag scan of `TypeCheckedDescriptor.__init__` over the
members of a union type (decor.py 136-147): walks the hypod members in
order accumulating registry keys, true when some member's keys intersect
the keys seen so far. -/
def unionDupCheckAux (tbl : ClsTable) (keys : List String) : TyList → Bool
  | .nil => false
  | .cons t rest =>
      match t with
      | .cls n =>
          if isHypodCls tbl n then
            let newKeys := (subclassesOf tbl n).map Prod.fst
            if newKeys.any (fun k => keys.contains k) then true
            else unionDupCheckAux tbl (keys ++ newKeys) rest
          else unionDupCheckAux tbl keys rest
      | _ => unionDupCheckAux tbl keys rest

def unionHasDupTags (tbl : ClsTable) : Ty → Bool
  | .union args => unionDupCheckAux tbl [] args
  | _ => false

/-- `dict in get_args(datacls)` (decor.py 149). -/
def unionHasDict : Ty → Bool
  | .union args => tyMem Ty.tdict args
  | _ => false

/-- `TypeCheckedDescriptor.__init__` (decor.py 113-155): records the
options, emits the ambiguity warning for parsing-enabled unions that
contain `str`, and for unions of hypods rejects duplicate tags across
members and rejects unions containing raw `dict`.  Returns the
descriptor and the emitted warnings. -/
def descriptorInit (tbl : ClsTable) (name : String) (default : Val) (datacls : Ty)
    (allow_parsing update_if_hypod strict_type_checking : Bool) :
    Except Err (TypeCheckedDescriptor × List String) :=
  let warns := if allow_parsing && is_union_of Ty.tstr datacls
               then [strUnionWarning name] else []
  if is_union_of_hypod tbl datacls then
    if unionHasDupTags tbl datacls then .error (.valueError duplicateTagsMsg)
    else if unionHasDict datacls then .error (.valueError unionDictMsg)
    else .ok (⟨name, default, datacls, allow_parsing, update_if_hypod,
               strict_type_checking⟩, warns)
  else .ok (⟨name, default, datacls, allow_parsing, update_if_hypod,
             strict_type_checking⟩, warns)

/-- `TypeCheckedDescriptor._check_type` followed by the slot store of
`__set__` (decor.py 168-180 and 203): on a type mismatch either raise
(strict mode) or warn and store anyway (lenient mode). -/
def checkAndStore (tbl : ClsTable) (d : TypeCheckedDescriptor)
    (slots : Entries) (v : Val) : Except Err (Entries × List String) :=
  if checkType tbl v d.datacls then .ok (ainsert slots d.name v, [])
  else if d.strict_type_checking then .error (.typeCheckError (typeMismatchMsg d.name))
  else .ok (ainsert slots d.name v, [typeMismatchMsg d.name])

/-- The descriptor the `hypod` decorator installs for a field: the
decorator passes no option flags (decor.py 287-295), so the constructor
defaults `allow_parsing=True, update_if_hypod=True,
strict_type_checking=False` apply. -/
def descOf (f : FieldDef) : TypeCheckedDescriptor :=
  ⟨f.name, f.default, f.ty, true, true, false⟩

def isDictOrStr : Val → Bool
  | .dict _ => true
  | .str _ => true
  | _ => false

/-- `self._datacls is str`. -/
def isStrTy : Ty → Bool
  | .tstr => true
  | _ => false

/-- The string-parsing condition of `__set__` (decor.py 185-190): the
value is a string (tested at the call site), parsing is enabled, the
declared type is neither `str` nor a union containing `str`, and is
neither a hypod class nor a union of hypods. -/
def parseCond (tbl : ClsTable) (d : TypeCheckedDescriptor) : Bool :=
  d.allow_parsing
    && !(isStrTy d.datacls || is_union_of Ty.tstr d.datacls)
    && !(is_hypod tbl d.datacls || is_union_of_hypod tbl d.datacls)

/-- Keyword-binding check of the generated `__init__`: every keyword must
name an `init` field. -/
def allKeysAreInitFields (flds : List FieldDef) : Entries → Bool
  | .nil => true
  | .cons k _ rest =>
      flds.any (fun f => f.init && f.name == k) && allKeysAreInitFields flds rest

/-- Keyword-binding check of the generated `__init__`: an `init` field
with no default must be supplied. -/
def missingRequired (flds : List FieldDef) (kwargs : Entries) : Bool :=
  flds.any (fun f => f.init && !amem kwargs f.name && f.default == Val.missing)

mutual

/-- `TypeCheckedDescriptor.__set__` (decor.py 182-203): reject the
`MISSING` sentinel, literal-evaluate strings when `parseCond` holds
(`eval` is the oracle `ev`), then hand over to the resolution phase. -/
def setField (ev : String → Except Err Val) (tbl : ClsTable)
    (d : TypeCheckedDescriptor) (slots : Entries) (new_val : Val) :
    Nat → Except Err (Entries × List String)
  | 0 => .error .fuelOut
  | fuel+1 =>
    if new_val = Val.missing then .error (.valueError (missingValueMsg d.name))
    else
      match new_val with
      | .str s =>
          if parseCond tbl d then
            match ev s with
            | .error e => .error e
            | .ok v => setFieldResolved ev tbl d slots v fuel
          else setFieldResolved ev tbl d slots (.str s) fuel
      | v => setFieldResolved ev tbl d slots v fuel

/-- Lines 193-203 of `__set__`: for a hypod (or union-of-hypod) field
receiving a dict or string, resolve the variant against the current value
(the slot content, or the descriptor default when unset); then type-check
and store. -/
def setFieldResolved (ev : String → Except Err Val) (tbl : ClsTable)
    (d : TypeCheckedDescriptor) (slots : Entries) (v : Val) :
    Nat → Except Err (Entries × List String)
  | 0 => .error .fuelOut
  | fuel+1 =>
    if (is_hypod tbl d.datacls || is_union_of_hypod tbl d.datacls)
        && isDictOrStr v then
      match infer_new_hypod_val ev tbl d.name d.datacls
          ((alookup slots d.name).getD d.default) v d.update_if_hypod fuel with
      | .error e => .error e
      | .ok v2 => checkAndStore tbl d slots v2
    else checkAndStore tbl d slots v

/-- `infer_new_hypod_val` (decor.py 68-78): wrap a bare string as
`dict(_tag=s)`, resolve the concrete class, then merge-replace into the
current value when the policy allows and the class matches, else
construct the class fresh from the remaining entries. -/
def infer_new_hypod_val (ev : String → Except Err Val) (tbl : ClsTable)
    (field_name : String) (annotated_cls : Ty) (curr_val : Val) (new_val : Val)
    (update_if_hypod : Bool) : Nat → Except Err Val
  | 0 => .error .fuelOut
  | fuel+1 =>
    match (match new_val with
           | .str s => some (Entries.cons "_tag" (.str s) .nil)
           | .dict entries => some entries
           | _ => none) with
    | none => .error (.typeError "infer_new_hypod_val expects a dict or str")
    | some d0 =>
        match infer_new_hypod_cls tbl field_name annotated_cls curr_val d0 with
        | .error e => .error e
        | .ok (new_cls, d1) =>
            if update_if_hypod ∧ curr_val ≠ Val.missing ∧ new_cls = pyType curr_val
            then replace ev tbl curr_val update_if_hypod d1 fuel
            else construct ev tbl new_cls d1 fuel

/-- `replace` (decor.py 81-109): only valid on hypod instances; runs the
field loop to complete/resolve the change set, then rebuilds the instance
through the normal construction path. -/
def replace (ev : String → Except Err Val) (tbl : ClsTable) (obj : Val)
    (update_if_hypod : Bool) (changes : Entries) : Nat → Except Err Val
  | 0 => .error .fuelOut
  | fuel+1 =>
    match obj with
    | .inst c slots =>
        match lookupCls tbl c with
        | some cd =>
            if cd.isHypod then
              match replaceLoop ev tbl slots cd.fields update_if_hypod changes fuel with
              | .error e => .error e
              | .ok changes2 => construct ev tbl c changes2 fuel
            else .error (.typeError replaceTypeMsg)
        | none => .error (.typeError replaceTypeMsg)
    | _ => .error (.typeError replaceTypeMsg)

/-- The `for f in fields(obj)` loop of `replace` (decor.py 85-107):
non-`init` fields may not appear in the changes; a changed hypod-typed
field given a dict/string is resolved against the current field value; an
untouched field's current value is copied into the changes. -/
def replaceLoop (ev : String → Except Err Val) (tbl : ClsTable) (slots : Entries)
    (flds : List FieldDef) (update_if_hypod : Bool) (changes : Entries) :
    Nat → Except Err Entries
  | 0 => .error .fuelOut
  | fuel+1 =>
    match flds with
    | [] => .ok changes
    | f :: rest =>
        if !f.init then
          if amem changes f.name then .error (.valueError (initFalseMsg f.name))
          else replaceLoop ev tbl slots rest update_if_hypod changes fuel
        else
          match alookup changes f.name with
          | some new_val =>
              if (is_hypod tbl f.ty || is_union_of_hypod tbl f.ty)
                  && isDictOrStr new_val then
                match infer_new_hypod_val ev tbl f.name f.ty
                    ((alookup slots f.name).getD f.default) new_val
                    update_if_hypod fuel with
                | .error e => .error e
                | .ok v2 =>
                    replaceLoop ev tbl slots rest update_if_hypod
                      (ainsert changes f.name v2) fuel
              else replaceLoop ev tbl slots rest update_if_hypod changes fuel
          | none =>
              replaceLoop ev tbl slots rest update_if_hypod
                (ainsert changes f.name ((alookup slots f.name).getD f.default)) fuel

/-- The `__init__` that `dataclass` generates for a decorated class:
keyword binding checks (unexpected keyword / missing required argument),
then each field is assigned in declaration order through the descriptor
the `hypod` decorator installed, so every assignment re-runs parsing,
resolution and type-checking. -/
def construct (ev : String → Except Err Val) (tbl : ClsTable) (cls : String)
    (kwargs : Entries) : Nat → Except Err Val
  | 0 => .error .fuelOut
  | fuel+1 =>
    match lookupCls tbl cls with
    | none => .error (.typeError ("class " ++ cls ++ " is not constructible"))
    | some cd =>
        if !(allKeysAreInitFields cd.fields kwargs) then
          .error (.typeError unexpectedKwargMsg)
        else if missingRequired cd.fields kwargs then
          .error (.typeError missingArgMsg)
        else
          match constructLoop ev tbl cd.fields kwargs .nil fuel with
          | .error e => .error e
          | .ok slots => .ok (.inst cls slots)

/-- The assignment sequence of the generated `__init__`: `init` fields
get the keyword value (or their default) through `setField`; non-`init`
fields keep their default (the dataclass machinery leaves it as the
class-level default, represented here by storing it in the slot). -/
def constructLoop (ev : String → Except Err Val) (tbl : ClsTable)
    (flds : List FieldDef) (kwargs : Entries) (slots : Entries) :
    Nat → Except Err Entries
  | 0 => .error .fuelOut
  | fuel+1 =>
    match flds with
    | [] => .ok slots
    | f :: rest =>
        if f.init then
          match setField ev tbl (descOf f) slots
              ((alookup kwargs f.name).getD f.default) fuel with
          | .error e => .error e
          | .ok (slots2, _warns) => constructLoop ev tbl rest kwargs slots2 fuel
        else
          if f.default = Val.missing then constructLoop ev tbl rest kwargs slots fuel
          else constructLoop ev tbl rest kwargs (ainsert slots f.name f.default) fuel

end

/-! ## The `hypod` decorator's descriptor installation (decor.py 284-295) -/

/-- The loop at the end of the `hypod` decorator: one
`TypeCheckedDescriptor(name=..., default=..., datacls=..., objcls=...)`
per annotated field, with no option flags, hence the constructor
defaults.  Returns the descriptors with their construction-time
warnings. -/
def hypodDescriptors (tbl : ClsTable) :
    List FieldDef → Except Err (List (TypeCheckedDescriptor × List String))
  | [] => .ok []
  | f :: rest =>
      match descriptorInit tbl f.name f.default f.ty true true false with
      | .error e => .error e
      | .ok dw =>
          match hypodDescriptors tbl rest with
          | .error e => .error e
          | .ok rest2 => .ok (dw :: rest2)

/-! ## Subclass registration (`__init_subclass__`, decor.py 239-250) -/

/-- Replace a class's `_subclasses` registry in the table. -/
def updateRegistry : ClsTable → String → List (String × String) → ClsTable
  | [], _, _ => []
  | (n, cd) :: rest, name, reg =>
      if n = name then (n, { cd with subclasses := reg }) :: rest
      else (n, cd) :: updateRegistry rest name reg

/-- `__init_subclass__` (decor.py 239-250).  `chain` is the new
subclass's hypod ancestors, most derived first; each level first calls
`super().__init_subclass__(tag=tag)` (at `object` the resulting
`TypeError` is swallowed), so the root ancestor checks and registers
first.  Registrations already performed persist even when a later level
raises (the registries are mutated in place), so the table is returned
alongside the possible error. -/
def initSubclass : ClsTable → List String → String → String → ClsTable × Option Err
  | tbl, [], _, _ => (tbl, none)
  | tbl, c :: rest, tag, sub =>
      match initSubclass tbl rest tag sub with
      | (tbl2, some e) => (tbl2, some e)
      | (tbl2, none) =>
          match lookupCls tbl2 c with
          | none => (tbl2, some (.attributeError c))
          | some cd =>
              if (rlookup cd.subclasses tag).isSome then
                (tbl2, some (.valueError (duplicateSubclassMsg tag c)))
              else (updateRegistry tbl2 c (rinsert cd.subclasses tag sub), none)

/-- Declaring `class Sub(Parent, tag=t)`: when no explicit tag is given,
every level of `__init_subclass__` defaults it to `subcls.__qualname__`
(the same value at each level), so the default is resolved once here. -/
def declareSubclass (tbl : ClsTable) (chain : List String) (tagOpt : Option String)
    (subQualname : String) : ClsTable × Option Err :=
  initSubclass tbl chain (tagOpt.getD subQualname) subQualname

/-! ## `make` and `_get_target_cls` (decor.py 212-227, 253-263) -/

/-- `getattr(module, attr)`: module-level bindings are exactly the
classes declared at top level, i.e. those whose `__qualname__` is the
single segment `attr`. -/
def getattrModule : ClsTable → String → Except Err String
  | [], attr => .error (.attributeError attr)
  | (n, cd) :: rest, attr =>
      if cd.qualname = [attr] then .ok n else getattrModule rest attr

/-- `_get_target_cls` (decor.py 212-227): `cls.__qualname__.rsplit(".", 1)`;
with no outer part, recurse into the first base class (which must be a
hypod) or answer `none` at `object`; with an outer part, look the whole
dotted prefix up as a single module attribute. -/
def get_target_cls (tbl : ClsTable) : Nat → String → Except Err (Option String)
  | 0, _ => .error .fuelOut
  | fuel+1, cname =>
      match lookupCls tbl cname with
      | none => .error (.attributeError cname)
      | some cd =>
          if cd.qualname.length = 1 then
            match cd.parent with
            | none => .ok none
            | some p =>
                if isHypodCls tbl p then get_target_cls tbl fuel p
                else .error (.valueError (nonHypodParentMsg cname))
          else
            match getattrModule tbl (String.intercalate "." cd.qualname.dropLast) with
            | .ok t => .ok (some t)
            | .error e => .error e

/-- `make` (decor.py 253-263): find the target class of the declaring
class and call it with the instance as its sole argument.  The target's
constructor is user code outside the framework; the call is represented
symbolically by `Val.built`. -/
def make (tbl : ClsTable) (fuel : Nat) (cls : String) (self : Val) : Except Err Val :=
  match get_target_cls tbl fuel cls with
  | .error e => .error e
  | .ok none => .error (.valueError noTargetMsg)
  | .ok (some t) => .ok (.built t self)

/-! ## The argv parser (parser.py) -/

/-- Python `s.split(c)` for a one-character separator. -/
def splitChars (c : Char) : List Char → List (List Char)
  | [] => [[]]
  | x :: xs =>
      let r := splitChars c xs
      if x = c then [] :: r
      else
        match r with
        | [] => [[x]]
        | h :: t => (x :: h) :: t

def splitStr (c : Char) (s : String) : List String :=
  (splitChars c s.toList).map String.mk

/-- `check_argv_format` (parser.py 4-7): every token must contain `=`,
not at the first and not at the last position. -/
def check_argv_format : List String → Except Err Unit
  | [] => .ok ()
  | a :: rest =>
      let cs := a.toList
      let idx := cs.findIdx (fun ch => ch = '=')
      if !cs.contains '=' || !(decide (0 < idx) && decide (idx < cs.length - 1)) then
        .error (.valueError (argvFormatMsg a))
      else check_argv_format rest

/-- `key, val = a.split("=")`: unpacking fails unless exactly two parts. -/
def splitKV (a : String) : Except Err (String × String) :=
  match splitStr '=' a with
  | [k, v] => .ok (k, v)
  | _ => .error (.valueError "too many values to unpack")

/-- `_make_dict` (parser.py 11-25), recursing over the dot-separated key
segments (the source peels one segment at a time with `split(".", 1)`,
which walks the same segment list).  At the last segment: a bare value
assigned to a key already holding a dict sets that dict's `_tag` instead;
otherwise plain assignment.  At an inner segment: an existing non-dict
value is demoted to `dict(_tag=value)` before descending. -/
def make_dict : List String → String → Entries → Entries
  | [], _, base => base
  | [k], v, base =>
      match alookup base k with
      | some (.dict sub) => ainsert base k (.dict (ainsert sub "_tag" (.str v)))
      | _ => ainsert base k (.str v)
  | k :: rest, v, base =>
      let sub :=
        match alookup base k with
        | some (.dict d) => d
        | some w => Entries.cons "_tag" w .nil
        | none => Entries.nil
      ainsert base k (.dict (make_dict rest v sub))

def parseArgvLoop : List String → Entries → Except Err Entries
  | [], acc => .ok acc
  | a :: rest, acc =>
      match splitKV a with
      | .error e => .error e
      | .ok (key, val) => parseArgvLoop rest (make_dict (splitStr '.' key) val acc)

/-- `parse_argv` (parser.py 10-33): check the token format, then fold
every `key=val` token into the nested dict. -/
def parse_argv (argv : List String) : Except Err Entries :=
  match check_argv_format argv with
  | .error e => .error e
  | .ok _ => parseArgvLoop argv .nil

/-! ## Validity of instances (used to state the frame property) -/

def tyListFlat : TyList → Bool
  | .nil => true
  | .cons t rest =>
      (match t with | .union _ => false | _ => true) && tyListFlat rest

/-- Union annotations as Python's `typing` produces them: `Union[...]`
flattens nested unions, so members are never themselves unions. -/
def tyFlat : Ty → Bool
  | .union args => tyListFlat args
  | _ => true

/-- A value admissible as stored content of a field slot: it passes the
structural type check, and for hypod-typed fields it is an
already-resolved value (a dict or string written through the descriptor
is resolved away, or rejected, before being stored). -/
def validValB (tbl : ClsTable) (ty : Ty) (v : Val) : Bool :=
  checkType tbl v ty
    && (!(is_hypod tbl ty || is_union_of_hypod tbl ty) || !isDictOrStr v)

def allDistinct : List String → Bool
  | [] => true
  | x :: xs => !xs.contains x && allDistinct xs

/-- `Val.inst c slots` is a valid instance of the class `cd`: distinct
field names, slots in field declaration order, every field stored with an
admissible value of a flat annotated type, and non-constructible
(`init=False`) fields still holding their (present) declared default --
the state every instance produced by the normal construction path is
in. -/
def validInstanceB (tbl : ClsTable) (cd : ClsDef) (slots : Entries) : Bool :=
  allDistinct (cd.fields.map FieldDef.name)
    && akeys slots == cd.fields.map FieldDef.name
    && cd.fields.all (fun f =>
         tyFlat f.ty &&
         match alookup slots f.name with
         | some v =>
             validValB tbl f.ty v
               && (f.init || (v == f.default && !(f.default == Val.missing)))
         | none => false)

/-- `getattr(obj, f.name)` through the installed descriptor: the slot
content, or the descriptor default when the slot is unset. -/
def getattrSlot (slots : Entries) (f : FieldDef) : Val :=
  (alookup slots f.name).getD f.default

/-- The change set `replace` builds from an empty change request: every
`init` field's current value, in declaration order. -/
def carriedOf (slots : Entries) : List FieldDef → Entries
  | [] => .nil
  | f :: rest =>
      if f.init then .cons f.name (getattrSlot slots f) (carriedOf slots rest)
      else carriedOf slots rest

/-- The slots the construction path produces when every field keeps its
current value. -/
def canonSlots (slots : Entries) : List FieldDef → Entries
  | [] => .nil
  | f :: rest => .cons f.name (getattrSlot slots f) (canonSlots slots rest)

/-- Concatenation of dicts (used only to state and prove lemmas about
the order in which the loops extend their accumulators). -/
def eappend : Entries → Entries → Entries
  | .nil, e => e
  | .cons k v r, e => .cons k v (eappend r e)

def isDictV : Val → Bool
  | .dict _ => true
  | _ => false

/-! ## Concrete classes used by the example theorems and witnesses.

They mirror the shapes in the repository's examples: a tagged `Data`
hierarchy, two independent tagged hierarchies `ABase`/`BBase` for union
fields, a small `LayerHP` record, and the nesting shapes used by `make`
(`Plain.Mid.Inner`, `Outer1.HP1`, a top-level subclass `HP1Sub`, and a
lone hypod `Lone`). -/
def exTbl : ClsTable := [
  ("Data", ⟨["Data"], none, true,
    [⟨"path", .tstr, .str "/d", true⟩, ⟨"batch_size", .tint, .int 4, true⟩],
    [("ffhq", "FFHQData")]⟩),
  ("FFHQData", ⟨["FFHQData"], some "Data", true,
    [⟨"path", .tstr, .str "/ffhq", true⟩, ⟨"batch_size", .tint, .int 4, true⟩], []⟩),
  ("ABase", ⟨["ABase"], none, true, [], [("a", "A")]⟩),
  ("A", ⟨["A"], some "ABase", true, [], []⟩),
  ("BBase", ⟨["BBase"], none, true, [], [("b", "B")]⟩),
  ("B", ⟨["B"], some "BBase", true, [⟨"foo", .tint, .missing, true⟩], []⟩),
  ("LayerHP", ⟨["LayerHP"], none, true,
    [⟨"in_features", .tint, .int 1, true⟩, ⟨"out_features", .tint, .int 2, true⟩], []⟩),
  ("Plain", ⟨["Plain"], none, false, [], []⟩),
  ("Mid", ⟨["Plain", "Mid"], none, true, [], []⟩),
  ("Inner", ⟨["Plain", "Mid", "Inner"], none, true, [], []⟩),
  ("Outer1", ⟨["Outer1"], none, false, [], []⟩),
  ("HP1", ⟨["Outer1", "HP1"], none, true, [], []⟩),
  ("HP1Sub", ⟨["HP1Sub"], some "HP1", true, [], []⟩),
  ("Lone", ⟨["Lone"], none, true, [], []⟩)]

/-- An eval oracle that resolves no name (no string in the examples ever
reaches `eval`). -/
def evF : String → Except Err Val := fun s => .error (.nameError s)

/-- A `LayerHP` instance used by witnesses. -/
def exLayer : Entries := .cons "in_features" (.int 1) (.cons "out_features" (.int 2) .nil)

def exLayerCls : ClsDef :=
  ⟨["LayerHP"], none, true,
    [⟨"in_features", .tint, .int 1, true⟩, ⟨"out_features", .tint, .int 2, true⟩], []⟩

/-! ## Association-list lemmas -/

/-- Single-motive induction for `Entries` (the mutual recursor has
several motives, which the `induction` tactic cannot use directly). -/
theorem entriesInd {motive : Entries → Prop} (nil : motive .nil)
    (cons : ∀ k v rest, motive rest → motive (.cons k v rest)) : ∀ e, motive e
  | .nil => nil
  | .cons k v rest => cons k v rest (entriesInd nil cons rest)

/-- Single-motive induction for `TyList`. -/
theorem tyListInd {motive : TyList → Prop} (nil : motive .nil)
    (cons : ∀ t rest, motive rest → motive (.cons t rest)) : ∀ ts, motive ts
  | .nil => nil
  | .cons t rest => cons t rest (tyListInd nil cons rest)

theorem alookup_ainsert_self (l : Entries) (k : String) (v : Val) :
    alookup (ainsert l k v) k = some v := by
  induction l using entriesInd with
  | nil => simp [ainsert, alookup]
  | cons k0 v0 rest ih =>
      by_cases h : k0 = k
      · simp [ainsert, h, alookup]
      · simp [ainsert, h, alookup, ih]

theorem alookup_ainsert_ne (l : Entries) (k k' : String) (v : Val) (h : k' ≠ k) :
    alookup (ainsert l k v) k' = alookup l k' := by
  have h2 : ¬(k = k') := fun hh => h hh.symm
  induction l using entriesInd with
  | nil => simp [ainsert, alookup, h2]
  | cons k0 v0 rest ih =>
      by_cases h0 : k0 = k
      · subst h0
        simp [ainsert, alookup, h2]
      · simp [ainsert, h0, alookup, ih]

theorem alookup_not_mem (l : Entries) (k : String) (h : k ∉ akeys l) :
    alookup l k = none := by
  induction l using entriesInd with
  | nil => simp [alookup]
  | cons k0 v0 rest ih =>
      simp [akeys] at h
      have h0 : ¬(k0 = k) := fun hh => h.1 hh.symm
      simp [alookup, h0, ih h.2]

theorem alookup_apop_self (l : Entries) (k : String)
    (h : allDistinct (akeys l) = true) :
    alookup (apop l k) k = none := by
  induction l using entriesInd with
  | nil => simp [apop, alookup]
  | cons k0 v0 rest ih =>
      simp [akeys, allDistinct, Bool.and_eq_true] at h
      by_cases h0 : k0 = k
      · subst h0
        simp [apop]
        exact alookup_not_mem rest k0 (by simpa using h.1)
      · simp [apop, h0, alookup, h0, ih h.2]

theorem eappend_nil (l : Entries) : eappend l .nil = l := by
  induction l using entriesInd with
  | nil => rfl
  | cons k v rest ih => simp [eappend, ih]

theorem eappend_assoc (a b c : Entries) :
    eappend (eappend a b) c = eappend a (eappend b c) := by
  induction a using entriesInd with
  | nil => rfl
  | cons k v rest ih => simp [eappend, ih]

theorem ainsert_eq_eappend (l : Entries) (k : String) (v : Val)
    (h : alookup l k = none) :
    ainsert l k v = eappend l (.cons k v .nil) := by
  induction l using entriesInd with
  | nil => rfl
  | cons k0 v0 rest ih =>
      by_cases h0 : k0 = k
      · simp [alookup, h0] at h
      · simp [alookup, h0] at h
        simp [ainsert, h0, eappend, ih h]

/-! ## Type-check lemmas -/

mutual

theorem checkType_missing (tbl : ClsTable) : ∀ t : Ty, checkType tbl Val.missing t = false
  | .tstr => rfl
  | .tint => rfl
  | .tdict => rfl
  | .cls _ => rfl
  | .union args => checkTypeAny_missing tbl args

theorem checkTypeAny_missing (tbl : ClsTable) :
    ∀ ts : TyList, checkTypeAny tbl Val.missing ts = false
  | .nil => rfl
  | .cons t rest => by
      simp [checkTypeAny, checkType_missing tbl t, checkTypeAny_missing tbl rest]

end

theorem checkTypeAny_str_mem (tbl : ClsTable) (s : String) :
    ∀ args : TyList, tyMem Ty.tstr args = true → checkTypeAny tbl (.str s) args = true
  | .nil, h => by simp [tyMem] at h
  | .cons t rest, h => by
      simp [tyMem] at h
      rcases h with h | h
      · cases t <;> simp_all [checkTypeAny, checkType]
      · simp [checkTypeAny, checkTypeAny_str_mem tbl s rest h]

theorem str_accept_flat_list (tbl : ClsTable) (s : String) :
    ∀ args : TyList, tyListFlat args = true → checkTypeAny tbl (.str s) args = true →
      tyMem Ty.tstr args = true
  | .nil, _, h => by simp [checkTypeAny] at h
  | .cons t rest, hf, h => by
      simp [tyListFlat, Bool.and_eq_true] at hf
      simp [checkTypeAny] at h
      rcases h with h | h
      · cases t <;> simp_all [checkType, tyMem]
      · simp [tyMem, str_accept_flat_list tbl s rest hf.2 h]

/-- A string value that passes the structural check against a flat
annotated type forces the type to be `str` or a union containing `str`
(exactly the types for which `__set__` skips literal evaluation). -/
theorem str_accept_flat (tbl : ClsTable) (s : String) (t : Ty)
    (hf : tyFlat t = true) (h : checkType tbl (.str s) t = true) :
    (isStrTy t || is_union_of Ty.tstr t) = true := by
  cases t with
  | tstr => rfl
  | tint => simp [checkType] at h
  | tdict => simp [checkType] at h
  | cls n => simp [checkType] at h
  | union args =>
      simp [tyFlat] at hf
      simp [checkType] at h
      simp [isStrTy, is_union_of, str_accept_flat_list tbl s args hf h]

/-! ## C8: the argv parser -/

/-- C8: parsing `["data=ffhq", "data.batch_size=16"]` yields
`{data: {_tag: "ffhq", batch_size: "16"}}`; in general a dotted
refinement arriving at a key holding a non-mapping scalar demotes the
scalar to `{_tag: scalar}` before descending, and a bare value assigned
at a key already holding a nested mapping sets that mapping's `_tag`
entry instead of overwriting it. -/
theorem parse_argv_tag_then_refine (k k2 : String) (ks : List String) (v : String)
    (base : Entries) (w : Val) (sub : Entries) :
    parse_argv ["data=ffhq", "data.batch_size=16"]
      = .ok (.cons "data" (.dict (.cons "_tag" (.str "ffhq")
          (.cons "batch_size" (.str "16") .nil))) .nil)
    ∧ (alookup base k = some w → isDictV w = false →
        make_dict (k :: k2 :: ks) v base
          = ainsert base k (.dict (make_dict (k2 :: ks) v (.cons "_tag" w .nil))))
    ∧ (alookup base k = some (.dict sub) →
        make_dict [k] v base = ainsert base k (.dict (ainsert sub "_tag" (.str v)))) := by
  refine ⟨rfl, ?_, ?_⟩
  · intro h1 h2
    cases w <;> simp_all [make_dict, isDictV]
  · intro h1
    simp [make_dict, h1]

/-- Witness for C8's general clauses at a concrete input: assigning the
bare value `ffhq` to key `data` that already holds the nested mapping
`{batch_size: "16"}` sets that mapping's `_tag`. -/
theorem parse_argv_tag_then_refine_w :
    make_dict ["data"] "ffhq"
        (.cons "data" (.dict (.cons "batch_size" (.str "16") .nil)) .nil)
      = .cons "data" (.dict (.cons "batch_size" (.str "16")
          (.cons "_tag" (.str "ffhq") .nil))) .nil := by
  have h := (parse_argv_tag_then_refine "data" "x" [] "ffhq"
    (.cons "data" (.dict (.cons "batch_size" (.str "16") .nil)) .nil) (.int 0)
    (.cons "batch_size" (.str "16") .nil)).2.2 rfl
  exact h

/-! ## C5: `make` and the nesting chain -/

/-- C5 counterexample: for an HPC nested two levels deep
(`Plain.Mid.Inner`), `make()` does not walk the nesting chain: the code
looks the whole dotted prefix `"Plain.Mid"` up as a single module
attribute, which fails (`AttributeError`), so no instance of the
outermost plain class is returned. -/
theorem make_two_level_cex :
    make exTbl 9 "Inner" (.inst "Inner" .nil) = .error (.attributeError "Plain.Mid")
    ∧ make exTbl 9 "Inner" (.inst "Inner" .nil)
        ≠ .ok (.built "Plain" (.inst "Inner" .nil)) := by
  constructor
  · rfl
  · intro h
    rw [show make exTbl 9 "Inner" (.inst "Inner" .nil)
          = .error (.attributeError "Plain.Mid") from rfl] at h
    exact Except.noConfusion h

/-- C5 (amended): `make()` on an HPC nested one level inside a plain
class returns an instance of that class built with the hypod instance as
sole argument, and the walk it does perform is along the inheritance
chain (a top-level subclass of a nested hypod reaches the same target);
an HPC nested two levels deep fails with an attribute error on the dotted
prefix; a top-level HPC with no parent fails with `NoBuildTargetError`. -/
theorem make_nesting_behaviour :
    make exTbl 9 "HP1" (.inst "HP1" .nil) = .ok (.built "Outer1" (.inst "HP1" .nil))
    ∧ make exTbl 9 "HP1Sub" (.inst "HP1Sub" .nil)
        = .ok (.built "Outer1" (.inst "HP1Sub" .nil))
    ∧ make exTbl 9 "Inner" (.inst "Inner" .nil) = .error (.attributeError "Plain.Mid")
    ∧ make exTbl 9 "Lone" (.inst "Lone" .nil) = .error (.valueError noTargetMsg) :=
  ⟨rfl, rfl, rfl, rfl⟩

/-! ## C2: ambiguous unions and the absent raw-mapping fallback -/

/-- C2 counterexample: the claimed raw-mapping fallback does not exist;
a union-of-hypod field type that explicitly includes raw `dict` cannot
even be declared: installing its field descriptor fails with the
`Union with dict is prohibited` error instead of permitting the field. -/
theorem union_dict_cex :
    descriptorInit exTbl "data" Val.missing
      (.union (.cons Ty.tdict (.cons (.cls "BBase") .nil))) true true false
      = .error (.valueError unionDictMsg) := rfl

/-- C2 (amended): resolving a mapping with no tag key against a union of
hypods with no current value fails with the ambiguous-union error; and
there is no raw-mapping fallback: a union type of hypods that includes
raw `dict` is rejected when the field descriptor is installed. -/
theorem ambiguous_union_no_fallback (tbl : ClsTable) (fn n : String)
    (args : TyList) (d : Entries) (dflt : Val) (dc : Ty) (ap u st : Bool)
    (hu : is_union_of_hypod tbl (.union args) = true)
    (hno : alookup d "_tag" = none)
    (hu2 : is_union_of_hypod tbl dc = true)
    (hdup : unionHasDupTags tbl dc = false)
    (hdict : unionHasDict dc = true) :
    infer_new_hypod_cls tbl fn (.union args) Val.missing d
      = .error (.valueError (ambiguousUnionMsg fn))
    ∧ descriptorInit tbl n dflt dc ap u st = .error (.valueError unionDictMsg) := by
  constructor
  · have h0 : is_hypod tbl (Ty.union args) = false := rfl
    simp [infer_new_hypod_cls, h0, hu, hno]
  · simp [descriptorInit, hu2, hdup, hdict]

/-- Witness for C2's amended statement at concrete inputs. -/
theorem ambiguous_union_no_fallback_w :
    infer_new_hypod_cls exTbl "data"
        (.union (.cons (.cls "ABase") (.cons (.cls "BBase") .nil)))
        Val.missing (.cons "x" (.int 1) .nil)
      = .error (.valueError (ambiguousUnionMsg "data"))
    ∧ descriptorInit exTbl "data" Val.missing
        (.union (.cons Ty.tdict (.cons (.cls "BBase") .nil))) true true false
      = .error (.valueError unionDictMsg) :=
  ambiguous_union_no_fallback exTbl "data" "data"
    (.cons (.cls "ABase") (.cons (.cls "BBase") .nil))
    (.cons "x" (.int 1) .nil) Val.missing
    (.union (.cons Ty.tdict (.cons (.cls "BBase") .nil))) true true false
    rfl rfl rfl rfl rfl

/-! ## C9: the pop of the reserved tag key is visible to the caller -/

/-- C9: when a mapping containing `_tag` is resolved successfully, the
resolver has popped the `_tag` entry from the very mapping object the
caller passed in (modelled by state passing: the returned dict is the
caller's dict after the call), so the caller's mapping no longer contains
the key. -/
theorem tag_pop_mutates_caller (tbl : ClsTable) (fn : String) (ty : Ty)
    (curr : Val) (d : Entries) (tv : Val) (c : String) (d2 : Entries)
    (htag : alookup d "_tag" = some tv)
    (hnd : allDistinct (akeys d) = true)
    (hok : infer_new_hypod_cls tbl fn ty curr d = .ok (c, d2)) :
    d2 = apop d "_tag" ∧ alookup d2 "_tag" = none := by
  have hd2 : d2 = apop d "_tag" := by
    unfold infer_new_hypod_cls at hok
    repeat' split at hok
    all_goals simp_all
  exact ⟨hd2, hd2 ▸ alookup_apop_self d "_tag" hnd⟩

/-- Witness for C9 at a concrete input. -/
theorem tag_pop_mutates_caller_w :
    apop (Entries.cons "_tag" (.str "b") (.cons "foo" (.int 1) .nil)) "_tag"
        = .cons "foo" (.int 1) .nil
    ∧ alookup (apop (Entries.cons "_tag" (.str "b") (.cons "foo" (.int 1) .nil)) "_tag")
        "_tag" = none := by
  have h := tag_pop_mutates_caller exTbl "data"
    (.union (.cons (.cls "ABase") (.cons (.cls "BBase") .nil))) Val.missing
    (.cons "_tag" (.str "b") (.cons "foo" (.int 1) .nil)) (.str "b") "B"
    (.cons "foo" (.int 1) .nil) rfl rfl rfl
  exact ⟨h.1.symm, h.1 ▸ h.2⟩

/-! ## C7: duplicate tag registration -/

/-- The registration chain fails at the root registry before inserting
anywhere when the tag is already present there. -/
theorem initSubclass_root_dup (tbl : ClsTable) (tag sub root : String) (rcd : ClsDef)
    (hcd : lookupCls tbl root = some rcd)
    (hdup : (rlookup rcd.subclasses tag).isSome = true) :
    ∀ chain : List String, chain.getLast? = some root →
      initSubclass tbl chain tag sub
        = (tbl, some (.valueError (duplicateSubclassMsg tag root)))
  | [] => by intro h; simp at h
  | [c] => by
      intro h
      simp at h
      subst h
      simp [initSubclass, hcd, hdup]
  | c :: c2 :: rest => by
      intro h
      have h2 : (c2 :: rest).getLast? = some root := by
        simpa [List.getLast?_cons_cons] using h
      have ih := initSubclass_root_dup tbl tag sub root rcd hcd hdup (c2 :: rest) h2
      show (match initSubclass tbl (c2 :: rest) tag sub with
            | (tbl2, some e) => (tbl2, some e)
            | (tbl2, none) =>
                match lookupCls tbl2 c with
                | none => (tbl2, some (Err.attributeError c))
                | some cd =>
                    if (rlookup cd.subclasses tag).isSome = true then
                      (tbl2, some (Err.valueError (duplicateSubclassMsg tag c)))
                    else (updateRegistry tbl2 c (rinsert cd.subclasses tag sub), none))
          = (tbl, some (Err.valueError (duplicateSubclassMsg tag root)))
      rw [ih]

/-- C7: declaring a subclass whose tag (explicit, or defaulting to the
subclass's qualified name) is already present in the hierarchy's root
registry fails with the duplicate-tag error, and no registry in the table
is modified (the root level checks before it inserts and the error aborts
the chain before any other level inserts). -/
theorem duplicate_tag_registration (tbl : ClsTable) (chain : List String)
    (tagOpt : Option String) (subq root tag : String) (rcd : ClsDef)
    (hres : tagOpt.getD subq = tag)
    (hlast : chain.getLast? = some root)
    (hcd : lookupCls tbl root = some rcd)
    (hdup : (rlookup rcd.subclasses tag).isSome = true) :
    declareSubclass tbl chain tagOpt subq
      = (tbl, some (.valueError (duplicateSubclassMsg tag root))) := by
  unfold declareSubclass
  rw [hres]
  exact initSubclass_root_dup tbl tag subq root rcd hcd hdup chain hlast

/-- Witness for C7: re-declaring tag `ffhq` in the `Data` hierarchy
fails and leaves the table unchanged. -/
theorem duplicate_tag_registration_w :
    declareSubclass exTbl ["Data"] (some "ffhq") "FFHQClone"
      = (exTbl, some (.valueError (duplicateSubclassMsg "ffhq" "Data"))) :=
  duplicate_tag_registration exTbl ["Data"] (some "ffhq") "FFHQClone" "Data" "ffhq"
    ⟨["Data"], none, true,
      [⟨"path", .tstr, .str "/d", true⟩, ⟨"batch_size", .tint, .int 4, true⟩],
      [("ffhq", "FFHQData")]⟩ rfl rfl rfl rfl

/-! ## C10: decorator defaults and lenient type checking -/

/-- A successfully installed descriptor records exactly the options it
was created with. -/
theorem descriptorInit_flags (tbl : ClsTable) (name : String) (dflt : Val)
    (dc : Ty) (ap u st : Bool) (dw : TypeCheckedDescriptor × List String)
    (h : descriptorInit tbl name dflt dc ap u st = .ok dw) :
    dw.1 = ⟨name, dflt, dc, ap, u, st⟩ := by
  unfold descriptorInit at h
  repeat' split at h
  all_goals (try simp_all)
  all_goals (subst h; rfl)

/-- Descriptors produced by the decorator's installation loop all carry
the constructor defaults. -/
theorem hypodDescriptors_defaults (tbl : ClsTable) :
    ∀ (flds : List FieldDef) (ds : List (TypeCheckedDescriptor × List String)),
      hypodDescriptors tbl flds = .ok ds →
        ∀ dw ∈ ds, dw.1.allow_parsing = true ∧ dw.1.update_if_hypod = true
          ∧ dw.1.strict_type_checking = false
  | [], ds, h => by
      simp [hypodDescriptors] at h
      subst h
      intro dw hdw
      simp at hdw
  | f :: rest, ds, h => by
      unfold hypodDescriptors at h
      revert h
      cases h1 : descriptorInit tbl f.name f.default f.ty true true false with
      | error e => intro h; simp at h
      | ok dw0 =>
          cases h2 : hypodDescriptors tbl rest with
          | error e => intro h; simp at h
          | ok rest2 =>
              intro h
              simp at h
              subst h
              intro dw hdw
              rcases List.mem_cons.mp hdw with h3 | h3
              · have h4 := descriptorInit_flags tbl f.name f.default f.ty true true false dw0 h1
                rw [h3, h4]
                exact ⟨rfl, rfl, rfl⟩
              · exact hypodDescriptors_defaults tbl rest rest2 h2 dw h3

/-- C10: every descriptor the `hypod` decorator installs is created with
the default options (string parsing on, merge-update on, strict type
checking off); consequently `_check_type` in the resulting lenient mode
never raises: a mismatching value is stored in the slot with a warning
recorded, a matching one with none. -/
theorem decorator_defaults_lenient (tbl : ClsTable) (flds : List FieldDef)
    (ds : List (TypeCheckedDescriptor × List String))
    (dw : TypeCheckedDescriptor × List String)
    (d : TypeCheckedDescriptor) (slots : Entries) (v : Val) :
    (hypodDescriptors tbl flds = .ok ds → dw ∈ ds →
       dw.1.allow_parsing = true ∧ dw.1.update_if_hypod = true
         ∧ dw.1.strict_type_checking = false)
    ∧ (d.strict_type_checking = false →
       checkAndStore tbl d slots v
         = .ok (ainsert slots d.name v,
             if checkType tbl v d.datacls then [] else [typeMismatchMsg d.name])) := by
  constructor
  · intro h hdw
    exact hypodDescriptors_defaults tbl flds ds h dw hdw
  · intro hst
    unfold checkAndStore
    by_cases hct : checkType tbl v d.datacls
    · simp [hct]
    · simp [hct, hst]

/-- Witness for C10: the `B.foo` descriptor carries the defaults, and a
lenient-mode store of a mismatching value (a string into the int-typed
field) succeeds with a warning. -/
theorem decorator_defaults_lenient_w :
    ((⟨"foo", Val.missing, Ty.tint, true, true, false⟩ : TypeCheckedDescriptor),
        ([] : List String)).1.allow_parsing = true
    ∧ checkAndStore exTbl ⟨"foo", Val.missing, Ty.tint, true, true, false⟩ .nil (.str "x")
        = .ok (.cons "foo" (.str "x") .nil, [typeMismatchMsg "foo"]) := by
  have h := decorator_defaults_lenient exTbl [⟨"foo", Ty.tint, Val.missing, true⟩]
    [(⟨"foo", Val.missing, Ty.tint, true, true, false⟩, [])]
    (⟨"foo", Val.missing, Ty.tint, true, true, false⟩, [])
    ⟨"foo", Val.missing, Ty.tint, true, true, false⟩ .nil (.str "x")
  exact ⟨(h.1 rfl (by simp)).1, h.2 rfl⟩

/-! ## C1: tagged resolution through a union of hypods -/

/-- C1: resolving a mapping carrying the reserved tag key against a union
of hypods looks the tag up in the union of the member registries, strips
the key, and yields the subclass registered under the tag; concretely,
`Union[ABase, BBase]` resolved with `dict(_tag="b", foo=v)` and no
current value constructs a `B` instance with field `foo=v`. -/
theorem union_tag_resolution (tbl : ClsTable) (fn : String) (args : TyList)
    (d : Entries) (tag sub : String) (curr : Val)
    (hu : is_union_of_hypod tbl (.union args) = true)
    (htag : alookup d "_tag" = some (.str tag))
    (hsub : rlookup (mergedSubclasses tbl args) tag = some sub) :
    infer_new_hypod_cls tbl fn (.union args) curr d = .ok (sub, apop d "_tag")
    ∧ ∀ (ev : String → Except Err Val) (v : Int) (fuel : Nat),
        infer_new_hypod_val ev exTbl "data"
          (.union (.cons (.cls "ABase") (.cons (.cls "BBase") .nil)))
          Val.missing (.dict (.cons "_tag" (.str "b") (.cons "foo" (.int v) .nil)))
          true (fuel+5)
          = .ok (.inst "B" (.cons "foo" (.int v) .nil)) := by
  constructor
  · have h0 : is_hypod tbl (Ty.union args) = false := rfl
    simp [infer_new_hypod_cls, h0, hu, htag, hsub]
  · intro ev v fuel
    rfl

/-- Witness for C1 at a concrete input. -/
theorem union_tag_resolution_w :
    infer_new_hypod_cls exTbl "data"
        (.union (.cons (.cls "ABase") (.cons (.cls "BBase") .nil))) Val.missing
        (.cons "_tag" (.str "b") (.cons "foo" (.int 1) .nil))
      = .ok ("B", .cons "foo" (.int 1) .nil)
    ∧ infer_new_hypod_val evF exTbl "data"
        (.union (.cons (.cls "ABase") (.cons (.cls "BBase") .nil))) Val.missing
        (.dict (.cons "_tag" (.str "b") (.cons "foo" (.int 1) .nil))) true 7
      = .ok (.inst "B" (.cons "foo" (.int 1) .nil)) := by
  have h := union_tag_resolution exTbl "data"
    (.cons (.cls "ABase") (.cons (.cls "BBase") .nil))
    (.cons "_tag" (.str "b") (.cons "foo" (.int 1) .nil)) "b" "B" Val.missing
    rfl rfl rfl
  exact ⟨h.1, h.2 evF 1 2⟩

/-! ## C3: tagless resolution against a current value -/

/-- C3: for a hypod or union-of-hypod field written with a mapping that
has no tag key while a current value exists, the resolver takes the
current value's runtime class as the concrete type; since that class
always equals the current value's own class, the merge-if-possible test
reduces to the policy flag: enabled (the default) it structurally
replaces the current value with the remaining entries, disabled it
constructs the class fresh from them. -/
theorem merge_uses_current_type (ev : String → Except Err Val) (tbl : ClsTable)
    (fn : String) (ty : Ty) (c : String) (cs : Entries) (d : Entries)
    (u : Bool) (fuel : Nat)
    (hty : (is_hypod tbl ty || is_union_of_hypod tbl ty) = true)
    (hno : alookup d "_tag" = none) :
    infer_new_hypod_cls tbl fn ty (.inst c cs) d = .ok (c, d)
    ∧ infer_new_hypod_val ev tbl fn ty (.inst c cs) (.dict d) u (fuel+1)
        = if u = true then replace ev tbl (.inst c cs) u d fuel
          else construct ev tbl c d fuel := by
  have h1 : infer_new_hypod_cls tbl fn ty (.inst c cs) d = .ok (c, d) := by
    rw [Bool.or_eq_true] at hty
    rcases hty with h | h
    · cases ty <;> simp_all [is_hypod]
      case cls n => simp [infer_new_hypod_cls, is_hypod, h, hno, pyType]
    · cases ty <;> simp_all [is_union_of_hypod]
      case union args =>
        have h0 : is_hypod tbl (Ty.union args) = false := rfl
        simp [infer_new_hypod_cls, h0, is_union_of_hypod, h, hno, pyType]
  refine ⟨h1, ?_⟩
  show (match infer_new_hypod_cls tbl fn ty (Val.inst c cs) d with
        | .error e => .error e
        | .ok (new_cls, d1) =>
            if u = true ∧ Val.inst c cs ≠ Val.missing ∧ new_cls = pyType (Val.inst c cs)
            then replace ev tbl (Val.inst c cs) u d1 fuel
            else construct ev tbl new_cls d1 fuel)
      = if u = true then replace ev tbl (Val.inst c cs) u d fuel
        else construct ev tbl c d fuel
  rw [h1]
  by_cases hu : u = true <;> simp [hu, pyType]

/-- Witness for C3 at a concrete input: merging `{in_features: 5}` into a
`LayerHP` current value goes through `replace` and keeps the class. -/
theorem merge_uses_current_type_w :
    infer_new_hypod_cls exTbl "layer_hp" (.cls "LayerHP") (.inst "LayerHP" exLayer)
        (.cons "in_features" (.int 5) .nil)
      = .ok ("LayerHP", .cons "in_features" (.int 5) .nil)
    ∧ infer_new_hypod_val evF exTbl "layer_hp" (.cls "LayerHP")
        (.inst "LayerHP" exLayer) (.dict (.cons "in_features" (.int 5) .nil)) true 9
      = replace evF exTbl (.inst "LayerHP" exLayer) true
          (.cons "in_features" (.int 5) .nil) 8 := by
  have h := merge_uses_current_type evF exTbl "layer_hp" (.cls "LayerHP")
    "LayerHP" exLayer (.cons "in_features" (.int 5) .nil) true 8 rfl rfl
  exact ⟨h.1, by simpa using h.2⟩

/-! ## C6: when a string value is literal-evaluated -/

/-- C6: a string written to a field is literal-evaluated exactly when
`parseCond` holds (parsing enabled, declared type neither `str` nor a
union containing `str` nor hypod-ish); when the declared type is `str` or
a union containing `str` with no hypod member, the string is stored as a
plain string; when the declared type is hypod-ish, the string skips
evaluation and enters variant resolution, where it is treated as the bare
tag `dict(_tag=s)`. -/
theorem string_parse_exactly_when (ev : String → Except Err Val) (tbl : ClsTable)
    (d : TypeCheckedDescriptor) (slots : Entries) (s : String) (fuel : Nat)
    (cv : Val) (u : Bool) :
    (parseCond tbl d = true →
       setField ev tbl d slots (.str s) (fuel+1)
         = match ev s with
           | .error e => .error e
           | .ok v => setFieldResolved ev tbl d slots v fuel)
    ∧ (parseCond tbl d = false →
       setField ev tbl d slots (.str s) (fuel+1)
         = setFieldResolved ev tbl d slots (.str s) fuel)
    ∧ ((isStrTy d.datacls = true
         ∨ (is_union_of Ty.tstr d.datacls = true
             ∧ (is_hypod tbl d.datacls || is_union_of_hypod tbl d.datacls) = false)) →
       setField ev tbl d slots (.str s) (fuel+2)
         = .ok (ainsert slots d.name (.str s), []))
    ∧ ((is_hypod tbl d.datacls || is_union_of_hypod tbl d.datacls) = true →
       setField ev tbl d slots (.str s) (fuel+1)
         = setFieldResolved ev tbl d slots (.str s) fuel
       ∧ infer_new_hypod_val ev tbl d.name d.datacls cv (.str s) u (fuel+1)
           = infer_new_hypod_val ev tbl d.name d.datacls cv
               (.dict (.cons "_tag" (.str s) .nil)) u (fuel+1)) := by
  have hunf : ∀ n : Nat, setField ev tbl d slots (.str s) (n+1)
      = if Val.str s = Val.missing then .error (.valueError (missingValueMsg d.name))
        else if parseCond tbl d = true then
          (match ev s with
           | .error e => .error e
           | .ok v => setFieldResolved ev tbl d slots v n)
        else setFieldResolved ev tbl d slots (.str s) n := fun _ => rfl
  have hset : ∀ n : Nat, parseCond tbl d = false →
      setField ev tbl d slots (.str s) (n+1)
        = setFieldResolved ev tbl d slots (.str s) n := by
    intro n hpc
    rw [hunf n, if_neg (by simp), if_neg (by simp [hpc])]
  have hresolved : ∀ n : Nat, setFieldResolved ev tbl d slots (.str s) (n+1)
      = if ((is_hypod tbl d.datacls || is_union_of_hypod tbl d.datacls)
              && isDictOrStr (.str s)) = true then
          (match infer_new_hypod_val ev tbl d.name d.datacls
              ((alookup slots d.name).getD d.default) (.str s) d.update_if_hypod n with
           | .error e => .error e
           | .ok v2 => checkAndStore tbl d slots v2)
        else checkAndStore tbl d slots (.str s) := fun _ => rfl
  refine ⟨?_, hset fuel, ?_, ?_⟩
  · intro hpc
    rw [hunf fuel, if_neg (by simp), if_pos hpc]
  · intro h
    have hpcF : parseCond tbl d = false := by
      rcases h with h | ⟨h1, _⟩
      · have ht : d.datacls = Ty.tstr := by
          cases hdc : d.datacls <;> simp_all [isStrTy]
        simp [parseCond, ht, isStrTy]
      · simp [parseCond, h1]
    rw [hset (fuel+1) hpcF]
    rcases h with h | ⟨h1, h2⟩
    · have ht : d.datacls = Ty.tstr := by
        cases hdc : d.datacls <;> simp_all [isStrTy]
      rw [hresolved fuel, if_neg (by simp [ht, is_hypod, is_union_of_hypod])]
      simp [checkAndStore, ht, checkType]
    · rw [hresolved fuel, if_neg (by simp [h2])]
      have hct : checkType tbl (.str s) d.datacls = true := by
        cases hdc : d.datacls <;> simp_all [is_union_of]
        case union args =>
          have hm : tyMem Ty.tstr args = true := h1
          exact checkTypeAny_str_mem tbl s args hm
      simp [checkAndStore, hct]
  · intro h
    refine ⟨hset fuel (by simp [parseCond, h]), rfl⟩

/-- Witness for C6 at a concrete input: an int-typed parsing-enabled
field assigned the string "7" goes through the eval oracle. -/
theorem string_parse_exactly_when_w :
    setField (fun _ => .ok (.int 7)) exTbl
        ⟨"lr", Val.missing, Ty.tint, true, true, false⟩ .nil (.str "7") 3
      = .ok (.cons "lr" (.int 7) .nil, []) := by
  have h := (string_parse_exactly_when (fun _ => .ok (.int 7)) exTbl
    ⟨"lr", Val.missing, Ty.tint, true, true, false⟩ .nil "7" 2 Val.missing true).1 rfl
  exact h.trans rfl

/-! ## C4: lemmas about single field stores -/

theorem checkAndStore_ok_shape (tbl : ClsTable) (d : TypeCheckedDescriptor)
    (slots : Entries) (v : Val) (slots2 : Entries) (w : List String)
    (h : checkAndStore tbl d slots v = .ok (slots2, w)) :
    slots2 = ainsert slots d.name v := by
  unfold checkAndStore at h
  repeat' split at h
  all_goals simp_all

theorem setFieldResolved_ok_shape (ev : String → Except Err Val) (tbl : ClsTable)
    (d : TypeCheckedDescriptor) (slots : Entries) (v : Val) (fuel : Nat)
    (slots2 : Entries) (w : List String)
    (h : setFieldResolved ev tbl d slots v fuel = .ok (slots2, w)) :
    ∃ v2, slots2 = ainsert slots d.name v2 := by
  cases fuel with
  | zero => simp [setFieldResolved] at h
  | succ n =>
      have hunf : setFieldResolved ev tbl d slots v (n+1)
          = if ((is_hypod tbl d.datacls || is_union_of_hypod tbl d.datacls)
                  && isDictOrStr v) = true then
              (match infer_new_hypod_val ev tbl d.name d.datacls
                  ((alookup slots d.name).getD d.default) v d.update_if_hypod n with
               | .error e => .error e
               | .ok v2 => checkAndStore tbl d slots v2)
            else checkAndStore tbl d slots v := rfl
      rw [hunf] at h
      split at h
      · split at h
        · simp at h
        · next v2 _ => exact ⟨v2, checkAndStore_ok_shape tbl d slots v2 slots2 w h⟩
      · exact ⟨v, checkAndStore_ok_shape tbl d slots v slots2 w h⟩

theorem setField_ok_shape (ev : String → Except Err Val) (tbl : ClsTable)
    (d : TypeCheckedDescriptor) (slots : Entries) (v : Val) (fuel : Nat)
    (slots2 : Entries) (w : List String)
    (h : setField ev tbl d slots v fuel = .ok (slots2, w)) :
    ∃ v2, slots2 = ainsert slots d.name v2 := by
  cases fuel with
  | zero => simp [setField] at h
  | succ n =>
      cases v with
      | str s =>
          have hunf : setField ev tbl d slots (.str s) (n+1)
              = if Val.str s = Val.missing then
                  .error (.valueError (missingValueMsg d.name))
                else if parseCond tbl d = true then
                  (match ev s with
                   | .error e => .error e
                   | .ok v => setFieldResolved ev tbl d slots v n)
                else setFieldResolved ev tbl d slots (.str s) n := rfl
          rw [hunf, if_neg (by simp)] at h
          split at h
          · split at h
            · simp at h
            · next v1 _ =>
                exact setFieldResolved_ok_shape ev tbl d slots v1 n slots2 w h
          · exact setFieldResolved_ok_shape ev tbl d slots (.str s) n slots2 w h
      | int m =>
          exact setFieldResolved_ok_shape ev tbl d slots (.int m) n slots2 w h
      | dict e =>
          exact setFieldResolved_ok_shape ev tbl d slots (.dict e) n slots2 w h
      | inst cn sl =>
          exact setFieldResolved_ok_shape ev tbl d slots (.inst cn sl) n slots2 w h
      | built cn a =>
          exact setFieldResolved_ok_shape ev tbl d slots (.built cn a) n slots2 w h
      | missing => simp [setField] at h

/-- Storing an already-admissible value through the decorator-installed
descriptor is inert: the value is stored unchanged with no warning (or
the fuel runs out, which has no Python counterpart). -/
theorem setField_valid (ev : String → Except Err Val) (tbl : ClsTable)
    (f : FieldDef) (slots : Entries) (v : Val) (fuel : Nat)
    (hval : validValB tbl f.ty v = true) (hflat : tyFlat f.ty = true) :
    setField ev tbl (descOf f) slots v fuel = .ok (ainsert slots f.name v, [])
    ∨ setField ev tbl (descOf f) slots v fuel = .error .fuelOut := by
  simp [validValB, Bool.and_eq_true] at hval
  obtain ⟨hct, hres⟩ := hval
  have hnm : v ≠ Val.missing := by
    intro hv
    rw [hv, checkType_missing] at hct
    exact Bool.false_ne_true hct
  have hstore : ∀ n : Nat, setFieldResolved ev tbl (descOf f) slots v (n+1)
      = .ok (ainsert slots f.name v, []) := by
    intro n
    have hskip : ((is_hypod tbl (descOf f).datacls
        || is_union_of_hypod tbl (descOf f).datacls) && isDictOrStr v) = false := by
      rcases hres with ⟨h1, h2⟩ | h3
      · simp [descOf, h1, h2]
      · simp [descOf, h3]
    have hunf : setFieldResolved ev tbl (descOf f) slots v (n+1)
        = if ((is_hypod tbl (descOf f).datacls
                || is_union_of_hypod tbl (descOf f).datacls)
                && isDictOrStr v) = true then
            (match infer_new_hypod_val ev tbl (descOf f).name (descOf f).datacls
                ((alookup slots (descOf f).name).getD (descOf f).default) v
                (descOf f).update_if_hypod n with
             | .error e => .error e
             | .ok v2 => checkAndStore tbl (descOf f) slots v2)
          else checkAndStore tbl (descOf f) slots v := rfl
    rw [hunf, if_neg (by simp [hskip])]
    simp [checkAndStore, descOf, hct]
  cases fuel with
  | zero => exact Or.inr rfl
  | succ n =>
      cases v with
      | str s =>
          have hpc : parseCond tbl (descOf f) = false := by
            have := str_accept_flat tbl s f.ty hflat hct
            rw [Bool.or_eq_true] at this
            rcases this with h | h
            · simp [parseCond, descOf, h]
            · simp [parseCond, descOf, h]
          have hset : setField ev tbl (descOf f) slots (.str s) (n+1)
              = setFieldResolved ev tbl (descOf f) slots (.str s) n := by
            have hunf : setField ev tbl (descOf f) slots (.str s) (n+1)
                = if Val.str s = Val.missing then
                    .error (.valueError (missingValueMsg (descOf f).name))
                  else if parseCond tbl (descOf f) = true then
                    (match ev s with
                     | .error e => .error e
                     | .ok v => setFieldResolved ev tbl (descOf f) slots v n)
                  else setFieldResolved ev tbl (descOf f) slots (.str s) n := rfl
            rw [hunf, if_neg (by simp), if_neg (by simp [hpc])]
          rw [hset]
          cases n with
          | zero => exact Or.inr rfl
          | succ m => exact Or.inl (hstore m)
      | int m =>
          cases n with
          | zero => exact Or.inr rfl
          | succ k => exact Or.inl (hstore k)
      | dict e =>
          cases n with
          | zero => exact Or.inr rfl
          | succ k => exact Or.inl (hstore k)
      | inst cn sl =>
          cases n with
          | zero => exact Or.inr rfl
          | succ k => exact Or.inl (hstore k)
      | built cn a =>
          cases n with
          | zero => exact Or.inr rfl
          | succ k => exact Or.inl (hstore k)
      | missing => exact absurd rfl hnm

/-! ## C4: lemmas about the carried change set and canonical slots -/

theorem alookup_eappend_none (a b : Entries) (k : String) (h : alookup a k = none) :
    alookup (eappend a b) k = alookup b k := by
  induction a using entriesInd with
  | nil => rfl
  | cons k0 v0 rest ih =>
      by_cases h0 : k0 = k
      · simp [alookup, h0] at h
      · simp [alookup, h0] at h
        simp [eappend, alookup, h0, ih h]

theorem alookup_eappend_some (a b : Entries) (k : String) (v : Val)
    (h : alookup a k = some v) :
    alookup (eappend a b) k = some v := by
  induction a using entriesInd with
  | nil => simp [alookup] at h
  | cons k0 v0 rest ih =>
      by_cases h0 : k0 = k
      · simp [alookup, h0] at h
        simp [eappend, alookup, h0, h]
      · simp [alookup, h0] at h
        simp [eappend, alookup, h0, ih h]

theorem alookup_carried_some (slots : Entries) :
    ∀ (flds : List FieldDef) (f : FieldDef),
      allDistinct (flds.map FieldDef.name) = true → f ∈ flds → f.init = true →
      alookup (carriedOf slots flds) f.name = some (getattrSlot slots f)
  | [], f, _, hf, _ => absurd hf (List.not_mem_nil f)
  | g :: rest, f, hd, hf, hi => by
      simp [allDistinct, Bool.and_eq_true] at hd
      rcases List.mem_cons.mp hf with h | h
      · subst h
        simp [carriedOf, hi, alookup]
      · have hrec := alookup_carried_some slots rest f hd.2 h hi
        by_cases hgi : g.init = true
        · have hne : ¬(g.name = f.name) := fun he => (hd.1 f h) he.symm
          simp [carriedOf, hgi, alookup, hne, hrec]
        · simp [carriedOf, hgi, hrec]

theorem alookup_carried_none (slots : Entries) :
    ∀ (flds : List FieldDef) (k : String),
      (∀ f ∈ flds, f.name ≠ k) →
      alookup (carriedOf slots flds) k = none
  | [], k, _ => rfl
  | g :: rest, k, h => by
      have hrec := alookup_carried_none slots rest k
        (fun f hf => h f (List.mem_cons_of_mem g hf))
      by_cases hgi : g.init = true
      · simp [carriedOf, hgi, alookup, h g (List.mem_cons_self g rest), hrec]
      · simp [carriedOf, hgi, hrec]

theorem allKeys_carried (flds : List FieldDef) (slots : Entries) :
    ∀ flds0 : List FieldDef, (∀ f ∈ flds0, f ∈ flds) →
      allKeysAreInitFields flds (carriedOf slots flds0) = true
  | [], _ => rfl
  | g :: rest, hsub => by
      have hrec := allKeys_carried flds slots rest
        (fun f hf => hsub f (List.mem_cons_of_mem g hf))
      by_cases hgi : g.init = true
      · have hany : flds.any (fun f2 => f2.init && f2.name == g.name) = true :=
          List.any_eq_true.mpr ⟨g, hsub g (List.mem_cons_self g rest), by simp [hgi]⟩
        simp [carriedOf, hgi, allKeysAreInitFields, hany, hrec]
      · simp [carriedOf, hgi, hrec]

theorem missingRequired_carried (slots : Entries) (flds : List FieldDef)
    (hd : allDistinct (flds.map FieldDef.name) = true) :
    missingRequired flds (carriedOf slots flds) = false := by
  unfold missingRequired
  rw [List.any_eq_false]
  intro f hf
  by_cases hi : f.init = true
  · have h := alookup_carried_some slots flds f hd hf hi
    simp [amem, h, hi]
  · simp [Bool.not_eq_true] at hi
    simp [hi]

theorem canonSlots_congr (s1 s2 : Entries) :
    ∀ flds : List FieldDef, (∀ f ∈ flds, alookup s1 f.name = alookup s2 f.name) →
      canonSlots s1 flds = canonSlots s2 flds
  | [], _ => rfl
  | f :: rest, h => by
      have hrec := canonSlots_congr s1 s2 rest
        (fun g hg => h g (List.mem_cons_of_mem f hg))
      simp [canonSlots, getattrSlot, h f (List.mem_cons_self f rest), hrec]

theorem slots_canonical_aux (whole : Entries) :
    ∀ (flds : List FieldDef) (slots : Entries),
      akeys slots = flds.map FieldDef.name →
      allDistinct (flds.map FieldDef.name) = true →
      (∀ f ∈ flds, alookup whole f.name = alookup slots f.name) →
      slots = canonSlots whole flds
  | [], slots, hk, _, _ => by
      cases slots using entriesInd with
      | nil => rfl
      | cons k v rest => simp [akeys] at hk
  | f :: rest', slots, hk, hd, hl => by
      cases slots using entriesInd with
      | nil => simp [akeys] at hk
      | cons k v rest =>
          simp [akeys] at hk
          obtain ⟨hk1, hk2⟩ := hk
          simp [allDistinct, Bool.and_eq_true] at hd
          have hv : getattrSlot whole f = v := by
            have h1 := hl f (List.mem_cons_self f rest')
            rw [← hk1] at h1
            simp [alookup] at h1
            simp [getattrSlot, ← hk1, h1]
          have htail : rest = canonSlots whole rest' := by
            apply slots_canonical_aux whole rest' rest hk2 hd.2
            intro g hg
            have h2 := hl g (List.mem_cons_of_mem f hg)
            have hne : ¬(k = g.name) := by
              intro he
              exact (hd.1 g hg) (he ▸ hk1)
            rw [h2]
            simp [alookup, hne]
          simp [canonSlots, ← hk1, hv, htail]

theorem validInstance_struct (tbl : ClsTable) (cd : ClsDef) (slots : Entries)
    (hv : validInstanceB tbl cd slots = true) :
    allDistinct (cd.fields.map FieldDef.name) = true
      ∧ akeys slots = cd.fields.map FieldDef.name := by
  simp [validInstanceB, Bool.and_eq_true] at hv
  exact ⟨hv.1.1, hv.1.2⟩

theorem validInstance_field (tbl : ClsTable) (cd : ClsDef) (slots : Entries)
    (hv : validInstanceB tbl cd slots = true) (f : FieldDef) (hf : f ∈ cd.fields) :
    tyFlat f.ty = true ∧ ∃ v, alookup slots f.name = some v
      ∧ validValB tbl f.ty v = true
      ∧ (f.init = false → v = f.default ∧ f.default ≠ Val.missing) := by
  simp only [validInstanceB, Bool.and_eq_true, List.all_eq_true] at hv
  have h := hv.2 f hf
  refine ⟨h.1, ?_⟩
  have h2 := h.2
  cases halk : alookup slots f.name with
  | none => rw [halk] at h2; exact absurd h2 (by simp)
  | some v =>
      rw [halk] at h2
      rw [Bool.and_eq_true] at h2
      refine ⟨v, rfl, h2.1, ?_⟩
      intro hni
      have h3 := h2.2
      rw [hni] at h3
      simp at h3
      exact ⟨h3.1, h3.2⟩

/-! ## C4: lemmas about the construction loop -/

theorem constructLoop_unfold_cons (ev : String → Except Err Val) (tbl : ClsTable)
    (f : FieldDef) (rest : List FieldDef) (kwargs slots : Entries) (n : Nat) :
    constructLoop ev tbl (f :: rest) kwargs slots (n+1)
      = if f.init = true then
          (match setField ev tbl (descOf f) slots
              ((alookup kwargs f.name).getD f.default) n with
           | .error e => .error e
           | .ok (slots2, _warns) => constructLoop ev tbl rest kwargs slots2 n)
        else if f.default = Val.missing then constructLoop ev tbl rest kwargs slots n
        else constructLoop ev tbl rest kwargs (ainsert slots f.name f.default) n := rfl

theorem constructLoop_frame (ev : String → Except Err Val) (tbl : ClsTable) :
    ∀ (flds : List FieldDef) (kwargs acc : Entries) (fuel : Nat) (out : Entries)
      (k : String),
      constructLoop ev tbl flds kwargs acc fuel = .ok out →
      (∀ g ∈ flds, g.name ≠ k) →
      alookup out k = alookup acc k
  | _, _, _, 0, _, _ => by intro h _; simp [constructLoop] at h
  | [], kwargs, acc, n+1, out, k => by
      intro h _
      simp [constructLoop] at h
      subst h
      rfl
  | f :: rest, kwargs, acc, n+1, out, k => by
      intro h hni
      rw [constructLoop_unfold_cons] at h
      have hkne : ¬(k = f.name) :=
        fun he => (hni f (List.mem_cons_self f rest)) he.symm
      have hrest : ∀ g ∈ rest, g.name ≠ k :=
        fun g hg => hni g (List.mem_cons_of_mem f hg)
      by_cases hf : f.init = true
      · rw [if_pos hf] at h
        cases hsf : setField ev tbl (descOf f) acc
            ((alookup kwargs f.name).getD f.default) n with
        | error e => rw [hsf] at h; simp at h
        | ok r =>
            obtain ⟨slots2, w⟩ := r
            rw [hsf] at h
            have h2 : constructLoop ev tbl rest kwargs slots2 n = .ok out := h
            obtain ⟨v2, hsl⟩ := setField_ok_shape ev tbl (descOf f) acc _ n slots2 w hsf
            have h3 := constructLoop_frame ev tbl rest kwargs slots2 n out k h2 hrest
            rw [h3, hsl]
            exact alookup_ainsert_ne acc (descOf f).name k v2 hkne
      · rw [if_neg hf] at h
        by_cases hdm : f.default = Val.missing
        · rw [if_pos hdm] at h
          exact constructLoop_frame ev tbl rest kwargs acc n out k h hrest
        · rw [if_neg hdm] at h
          have h3 := constructLoop_frame ev tbl rest kwargs
            (ainsert acc f.name f.default) n out k h hrest
          rw [h3, alookup_ainsert_ne acc f.name k f.default hkne]

theorem constructLoop_lookup_init (ev : String → Except Err Val) (tbl : ClsTable) :
    ∀ (flds : List FieldDef) (kwargs acc : Entries) (fuel : Nat) (out : Entries)
      (f : FieldDef) (v : Val),
      constructLoop ev tbl flds kwargs acc fuel = .ok out →
      allDistinct (flds.map FieldDef.name) = true →
      f ∈ flds → f.init = true →
      alookup kwargs f.name = some v →
      validValB tbl f.ty v = true → tyFlat f.ty = true →
      alookup out f.name = some v
  | _, _, _, 0, _, _, _ => by intro h _ _ _ _ _ _; simp [constructLoop] at h
  | [], _, _, n+1, _, f, _ => by
      intro _ _ hf _ _ _ _
      exact absurd hf (List.not_mem_nil f)
  | g :: rest, kwargs, acc, n+1, out, f, v => by
      intro h hd hf hi hkw hval hflat
      rw [constructLoop_unfold_cons] at h
      simp [allDistinct, Bool.and_eq_true] at hd
      rcases List.mem_cons.mp hf with he | he
      · subst he
        rw [if_pos hi, hkw, Option.getD_some] at h
        rcases setField_valid ev tbl f acc v n hval hflat with hsf | hsf
        · rw [hsf] at h
          have h2 : constructLoop ev tbl rest kwargs (ainsert acc f.name v) n
              = .ok out := h
          have h3 := constructLoop_frame ev tbl rest kwargs
            (ainsert acc f.name v) n out f.name h2
            (fun g2 hg2 => fun he2 => (hd.1 g2 hg2) he2)
          rw [h3, alookup_ainsert_self]
        · rw [hsf] at h; simp at h
      · by_cases hgi : g.init = true
        · rw [if_pos hgi] at h
          cases hsf : setField ev tbl (descOf g) acc
              ((alookup kwargs g.name).getD g.default) n with
          | error e => rw [hsf] at h; simp at h
          | ok r =>
              obtain ⟨slots2, w⟩ := r
              rw [hsf] at h
              have h2 : constructLoop ev tbl rest kwargs slots2 n = .ok out := h
              exact constructLoop_lookup_init ev tbl rest kwargs slots2 n out f v
                h2 hd.2 he hi hkw hval hflat
        · rw [if_neg hgi] at h
          by_cases hdm : g.default = Val.missing
          · rw [if_pos hdm] at h
            exact constructLoop_lookup_init ev tbl rest kwargs acc n out f v
              h hd.2 he hi hkw hval hflat
          · rw [if_neg hdm] at h
            exact constructLoop_lookup_init ev tbl rest kwargs
              (ainsert acc g.name g.default) n out f v h hd.2 he hi hkw hval hflat

theorem constructLoop_lookup_noninit (ev : String → Except Err Val) (tbl : ClsTable) :
    ∀ (flds : List FieldDef) (kwargs acc : Entries) (fuel : Nat) (out : Entries)
      (f : FieldDef),
      constructLoop ev tbl flds kwargs acc fuel = .ok out →
      allDistinct (flds.map FieldDef.name) = true →
      f ∈ flds → f.init = false → f.default ≠ Val.missing →
      alookup out f.name = some f.default
  | _, _, _, 0, _, _ => by intro h _ _ _ _; simp [constructLoop] at h
  | [], _, _, n+1, _, f => by
      intro _ _ hf _ _
      exact absurd hf (List.not_mem_nil f)
  | g :: rest, kwargs, acc, n+1, out, f => by
      intro h hd hf hi hdm
      rw [constructLoop_unfold_cons] at h
      simp [allDistinct, Bool.and_eq_true] at hd
      rcases List.mem_cons.mp hf with he | he
      · subst he
        rw [if_neg (by simp [hi]), if_neg hdm] at h
        have h3 := constructLoop_frame ev tbl rest kwargs
          (ainsert acc f.name f.default) n out f.name h
          (fun g2 hg2 => fun he2 => (hd.1 g2 hg2) he2)
        rw [h3, alookup_ainsert_self]
      · by_cases hgi : g.init = true
        · rw [if_pos hgi] at h
          cases hsf : setField ev tbl (descOf g) acc
              ((alookup kwargs g.name).getD g.default) n with
          | error e => rw [hsf] at h; simp at h
          | ok r =>
              obtain ⟨slots2, w⟩ := r
              rw [hsf] at h
              have h2 : constructLoop ev tbl rest kwargs slots2 n = .ok out := h
              exact constructLoop_lookup_noninit ev tbl rest kwargs slots2 n out f
                h2 hd.2 he hi hdm
        · rw [if_neg hgi] at h
          by_cases hdm2 : g.default = Val.missing
          · rw [if_pos hdm2] at h
            exact constructLoop_lookup_noninit ev tbl rest kwargs acc n out f
              h hd.2 he hi hdm
          · rw [if_neg hdm2] at h
            exact constructLoop_lookup_noninit ev tbl rest kwargs
              (ainsert acc g.name g.default) n out f h hd.2 he hi hdm

theorem constructLoop_all (ev : String → Except Err Val) (tbl : ClsTable)
    (slots : Entries) :
    ∀ (flds : List FieldDef) (kwargs acc : Entries) (fuel : Nat),
      allDistinct (flds.map FieldDef.name) = true →
      (∀ f ∈ flds, tyFlat f.ty = true
        ∧ validValB tbl f.ty (getattrSlot slots f) = true
        ∧ (f.init = true → alookup kwargs f.name = some (getattrSlot slots f))
        ∧ (f.init = false → f.default = getattrSlot slots f
             ∧ f.default ≠ Val.missing)) →
      (∀ f ∈ flds, alookup acc f.name = none) →
      constructLoop ev tbl flds kwargs acc fuel
          = .ok (eappend acc (canonSlots slots flds))
        ∨ constructLoop ev tbl flds kwargs acc fuel = .error .fuelOut
  | _, _, _, 0, _, _, _ => Or.inr rfl
  | [], kwargs, acc, n+1, _, _, _ => by
      left
      simp [constructLoop, canonSlots, eappend_nil]
  | f :: rest, kwargs, acc, n+1, hd, hfld, hacc => by
      rw [constructLoop_unfold_cons]
      simp [allDistinct, Bool.and_eq_true] at hd
      obtain ⟨hflat, hval, hkwi, hkwn⟩ := hfld f (List.mem_cons_self f rest)
      have haccf : alookup acc f.name = none := hacc f (List.mem_cons_self f rest)
      have hacc2 : ∀ g ∈ rest,
          alookup (ainsert acc f.name (getattrSlot slots f)) g.name = none := by
        intro g hg
        have hne : ¬(g.name = f.name) := hd.1 g hg
        rw [alookup_ainsert_ne acc f.name g.name _ hne]
        exact hacc g (List.mem_cons_of_mem f hg)
      by_cases hi : f.init = true
      · rw [if_pos hi, hkwi hi, Option.getD_some]
        rcases setField_valid ev tbl f acc (getattrSlot slots f) n hval hflat
          with hsf | hsf
        · rcases constructLoop_all ev tbl slots rest kwargs
              (ainsert acc f.name (getattrSlot slots f)) n hd.2
              (fun g hg => hfld g (List.mem_cons_of_mem f hg)) hacc2 with hok | hfo
          · left
            rw [hsf]
            show constructLoop ev tbl rest kwargs
                (ainsert acc f.name (getattrSlot slots f)) n
              = .ok (eappend acc (canonSlots slots (f :: rest)))
            rw [hok, ainsert_eq_eappend acc f.name _ haccf, eappend_assoc]
            simp [canonSlots, eappend]
          · right
            rw [hsf]
            show constructLoop ev tbl rest kwargs
                (ainsert acc f.name (getattrSlot slots f)) n = .error .fuelOut
            exact hfo
        · rw [hsf]
          right
          rfl
      · have hnd := hkwn (by simpa using hi)
        rw [if_neg hi, if_neg hnd.2, hnd.1]
        rcases constructLoop_all ev tbl slots rest kwargs
            (ainsert acc f.name (getattrSlot slots f)) n hd.2
            (fun g hg => hfld g (List.mem_cons_of_mem f hg)) hacc2 with hok | hfo
        · left
          rw [hok, ainsert_eq_eappend acc f.name _ haccf, eappend_assoc]
          simp [canonSlots, eappend]
        · right
          rw [hfo]

/-! ## C4: lemmas about the replace loop -/

theorem replaceLoop_unfold_cons (ev : String → Except Err Val) (tbl : ClsTable)
    (slots : Entries) (f : FieldDef) (rest : List FieldDef) (u : Bool)
    (changes : Entries) (n : Nat) :
    replaceLoop ev tbl slots (f :: rest) u changes (n+1)
      = if (!f.init) = true then
          (if amem changes f.name = true then
             .error (.valueError (initFalseMsg f.name))
           else replaceLoop ev tbl slots rest u changes n)
        else
          match alookup changes f.name with
          | some new_val =>
              if ((is_hypod tbl f.ty || is_union_of_hypod tbl f.ty)
                    && isDictOrStr new_val) = true then
                (match infer_new_hypod_val ev tbl f.name f.ty
                    ((alookup slots f.name).getD f.default) new_val u n with
                 | .error e => .error e
                 | .ok v2 =>
                     replaceLoop ev tbl slots rest u (ainsert changes f.name v2) n)
              else replaceLoop ev tbl slots rest u changes n
          | none =>
              replaceLoop ev tbl slots rest u
                (ainsert changes f.name ((alookup slots f.name).getD f.default)) n := rfl

theorem replaceLoop_cons_some (ev : String → Except Err Val) (tbl : ClsTable)
    (slots : Entries) (f : FieldDef) (rest : List FieldDef) (u : Bool)
    (changes : Entries) (n : Nat) (new_val : Val)
    (hi : f.init = true) (hch : alookup changes f.name = some new_val) :
    replaceLoop ev tbl slots (f :: rest) u changes (n+1)
      = if ((is_hypod tbl f.ty || is_union_of_hypod tbl f.ty)
              && isDictOrStr new_val) = true then
          (match infer_new_hypod_val ev tbl f.name f.ty
              ((alookup slots f.name).getD f.default) new_val u n with
           | .error e => .error e
           | .ok v2 => replaceLoop ev tbl slots rest u (ainsert changes f.name v2) n)
        else replaceLoop ev tbl slots rest u changes n := by
  rw [replaceLoop_unfold_cons, if_neg (by simp [hi]), hch]

theorem replaceLoop_cons_none (ev : String → Except Err Val) (tbl : ClsTable)
    (slots : Entries) (f : FieldDef) (rest : List FieldDef) (u : Bool)
    (changes : Entries) (n : Nat)
    (hi : f.init = true) (hch : alookup changes f.name = none) :
    replaceLoop ev tbl slots (f :: rest) u changes (n+1)
      = replaceLoop ev tbl slots rest u
          (ainsert changes f.name ((alookup slots f.name).getD f.default)) n := by
  rw [replaceLoop_unfold_cons, if_neg (by simp [hi]), hch]

theorem replaceLoop_cons_noninit (ev : String → Except Err Val) (tbl : ClsTable)
    (slots : Entries) (f : FieldDef) (rest : List FieldDef) (u : Bool)
    (changes : Entries) (n : Nat)
    (hi : f.init = false) (hm : amem changes f.name = false) :
    replaceLoop ev tbl slots (f :: rest) u changes (n+1)
      = replaceLoop ev tbl slots rest u changes n := by
  rw [replaceLoop_unfold_cons, if_pos (by simp [hi]), if_neg (by simp [hm])]

theorem replaceLoop_frame (ev : String → Except Err Val) (tbl : ClsTable)
    (slots : Entries) :
    ∀ (flds : List FieldDef) (u : Bool) (changes : Entries) (fuel : Nat)
      (out : Entries) (k : String),
      replaceLoop ev tbl slots flds u changes fuel = .ok out →
      (∀ g ∈ flds, g.name ≠ k) →
      alookup out k = alookup changes k
  | _, _, _, 0, _, _ => by intro h _; simp [replaceLoop] at h
  | [], u, changes, n+1, out, k => by
      intro h _
      simp [replaceLoop] at h
      subst h
      rfl
  | f :: rest, u, changes, n+1, out, k => by
      intro h hni
      have hkne : ¬(k = f.name) :=
        fun he => (hni f (List.mem_cons_self f rest)) he.symm
      have hrest : ∀ g ∈ rest, g.name ≠ k :=
        fun g hg => hni g (List.mem_cons_of_mem f hg)
      by_cases hf : f.init = true
      · cases hch : alookup changes f.name with
        | some new_val =>
            rw [replaceLoop_cons_some ev tbl slots f rest u changes n new_val hf hch]
              at h
            by_cases hres : ((is_hypod tbl f.ty || is_union_of_hypod tbl f.ty)
                && isDictOrStr new_val) = true
            · rw [if_pos hres] at h
              cases hinf : infer_new_hypod_val ev tbl f.name f.ty
                  ((alookup slots f.name).getD f.default) new_val u n with
              | error e => rw [hinf] at h; simp at h
              | ok v2 =>
                  rw [hinf] at h
                  have h2 : replaceLoop ev tbl slots rest u
                      (ainsert changes f.name v2) n = .ok out := h
                  have h3 := replaceLoop_frame ev tbl slots rest u
                    (ainsert changes f.name v2) n out k h2 hrest
                  rw [h3]
                  exact alookup_ainsert_ne changes f.name k v2 hkne
            · rw [if_neg hres] at h
              exact replaceLoop_frame ev tbl slots rest u changes n out k h hrest
        | none =>
            rw [replaceLoop_cons_none ev tbl slots f rest u changes n hf hch] at h
            have h3 := replaceLoop_frame ev tbl slots rest u
              (ainsert changes f.name ((alookup slots f.name).getD f.default))
              n out k h hrest
            rw [h3]
            exact alookup_ainsert_ne changes f.name k _ hkne
      · have hf2 : f.init = false := by simpa using hf
        by_cases hm : amem changes f.name = true
        · rw [replaceLoop_unfold_cons, if_pos (by simp [hf2]), if_pos hm] at h
          simp at h
        · rw [replaceLoop_cons_noninit ev tbl slots f rest u changes n hf2
            (by simpa using hm)] at h
          exact replaceLoop_frame ev tbl slots rest u changes n out k h hrest

theorem replaceLoop_carry (ev : String → Except Err Val) (tbl : ClsTable)
    (slots : Entries) :
    ∀ (flds : List FieldDef) (u : Bool) (changes : Entries) (fuel : Nat)
      (out : Entries) (f : FieldDef),
      replaceLoop ev tbl slots flds u changes fuel = .ok out →
      allDistinct (flds.map FieldDef.name) = true →
      f ∈ flds → f.init = true →
      alookup changes f.name = none →
      alookup out f.name = some (getattrSlot slots f)
  | _, _, _, 0, _, _ => by intro h _ _ _ _; simp [replaceLoop] at h
  | [], u, changes, n+1, out, f => by
      intro _ _ hf _ _
      exact absurd hf (List.not_mem_nil f)
  | g :: rest, u, changes, n+1, out, f => by
      intro h hd hf hi hnc
      simp [allDistinct, Bool.and_eq_true] at hd
      rcases List.mem_cons.mp hf with he | he
      · subst he
        rw [replaceLoop_cons_none ev tbl slots f rest u changes n hi hnc] at h
        have h3 := replaceLoop_frame ev tbl slots rest u
          (ainsert changes f.name ((alookup slots f.name).getD f.default))
          n out f.name h (fun g2 hg2 => fun he2 => (hd.1 g2 hg2) he2)
        rw [h3, alookup_ainsert_self]
        rfl
      · have hne : ¬(g.name = f.name) := fun he2 => (hd.1 f he) he2.symm
        by_cases hgi : g.init = true
        · cases hch : alookup changes g.name with
          | some new_val =>
              rw [replaceLoop_cons_some ev tbl slots g rest u changes n new_val
                hgi hch] at h
              by_cases hres : ((is_hypod tbl g.ty || is_union_of_hypod tbl g.ty)
                  && isDictOrStr new_val) = true
              · rw [if_pos hres] at h
                cases hinf : infer_new_hypod_val ev tbl g.name g.ty
                    ((alookup slots g.name).getD g.default) new_val u n with
                | error e => rw [hinf] at h; simp at h
                | ok v2 =>
                    rw [hinf] at h
                    have h2 : replaceLoop ev tbl slots rest u
                        (ainsert changes g.name v2) n = .ok out := h
                    have hnc3 : alookup (ainsert changes g.name v2) f.name = none := by
                      rw [alookup_ainsert_ne changes g.name f.name v2
                        (fun he2 => hne he2.symm)]
                      exact hnc
                    exact replaceLoop_carry ev tbl slots rest u
                      (ainsert changes g.name v2) n out f h2 hd.2 he hi hnc3
              · rw [if_neg hres] at h
                exact replaceLoop_carry ev tbl slots rest u changes n out f
                  h hd.2 he hi hnc
          | none =>
              rw [replaceLoop_cons_none ev tbl slots g rest u changes n hgi hch] at h
              have hnc3 : alookup (ainsert changes g.name
                  ((alookup slots g.name).getD g.default)) f.name = none := by
                rw [alookup_ainsert_ne changes g.name f.name _
                  (fun he2 => hne he2.symm)]
                exact hnc
              exact replaceLoop_carry ev tbl slots rest u
                (ainsert changes g.name ((alookup slots g.name).getD g.default))
                n out f h hd.2 he hi hnc3
        · have hg2 : g.init = false := by simpa using hgi
          by_cases hm : amem changes g.name = true
          · rw [replaceLoop_unfold_cons, if_pos (by simp [hg2]), if_pos hm] at h
            simp at h
          · rw [replaceLoop_cons_noninit ev tbl slots g rest u changes n hg2
              (by simpa using hm)] at h
            exact replaceLoop_carry ev tbl slots rest u changes n out f
              h hd.2 he hi hnc

theorem replaceLoop_skip (ev : String → Except Err Val) (tbl : ClsTable)
    (slots : Entries) :
    ∀ (flds : List FieldDef) (u : Bool) (changes : Entries) (fuel : Nat)
      (out : Entries) (f : FieldDef),
      replaceLoop ev tbl slots flds u changes fuel = .ok out →
      allDistinct (flds.map FieldDef.name) = true →
      f ∈ flds → f.init = false →
      alookup changes f.name = none →
      alookup out f.name = none
  | _, _, _, 0, _, _ => by intro h _ _ _ _; simp [replaceLoop] at h
  | [], u, changes, n+1, out, f => by
      intro _ _ hf _ _
      exact absurd hf (List.not_mem_nil f)
  | g :: rest, u, changes, n+1, out, f => by
      intro h hd hf hi hnc
      simp [allDistinct, Bool.and_eq_true] at hd
      rcases List.mem_cons.mp hf with he | he
      · subst he
        rw [replaceLoop_cons_noninit ev tbl slots f rest u changes n hi
          (by simp [amem, hnc])] at h
        have h3 := replaceLoop_frame ev tbl slots rest u changes n out f.name h
          (fun g2 hg2 => fun he2 => (hd.1 g2 hg2) he2)
        rw [h3]
        exact hnc
      · have hne : ¬(g.name = f.name) := fun he2 => (hd.1 f he) he2.symm
        by_cases hgi : g.init = true
        · cases hch : alookup changes g.name with
          | some new_val =>
              rw [replaceLoop_cons_some ev tbl slots g rest u changes n new_val
                hgi hch] at h
              by_cases hres : ((is_hypod tbl g.ty || is_union_of_hypod tbl g.ty)
                  && isDictOrStr new_val) = true
              · rw [if_pos hres] at h
                cases hinf : infer_new_hypod_val ev tbl g.name g.ty
                    ((alookup slots g.name).getD g.default) new_val u n with
                | error e => rw [hinf] at h; simp at h
                | ok v2 =>
                    rw [hinf] at h
                    have h2 : replaceLoop ev tbl slots rest u
                        (ainsert changes g.name v2) n = .ok out := h
                    have hnc3 : alookup (ainsert changes g.name v2) f.name = none := by
                      rw [alookup_ainsert_ne changes g.name f.name v2
                        (fun he2 => hne he2.symm)]
                      exact hnc
                    exact replaceLoop_skip ev tbl slots rest u
                      (ainsert changes g.name v2) n out f h2 hd.2 he hi hnc3
              · rw [if_neg hres] at h
                exact replaceLoop_skip ev tbl slots rest u changes n out f
                  h hd.2 he hi hnc
          | none =>
              rw [replaceLoop_cons_none ev tbl slots g rest u changes n hgi hch] at h
              have hnc3 : alookup (ainsert changes g.name
                  ((alookup slots g.name).getD g.default)) f.name = none := by
                rw [alookup_ainsert_ne changes g.name f.name _
                  (fun he2 => hne he2.symm)]
                exact hnc
              exact replaceLoop_skip ev tbl slots rest u
                (ainsert changes g.name ((alookup slots g.name).getD g.default))
                n out f h hd.2 he hi hnc3
        · have hg2 : g.init = false := by simpa using hgi
          by_cases hm : amem changes g.name = true
          · rw [replaceLoop_unfold_cons, if_pos (by simp [hg2]), if_pos hm] at h
            simp at h
          · rw [replaceLoop_cons_noninit ev tbl slots g rest u changes n hg2
              (by simpa using hm)] at h
            exact replaceLoop_skip ev tbl slots rest u changes n out f
              h hd.2 he hi hnc

theorem replaceLoop_empty (ev : String → Except Err Val) (tbl : ClsTable)
    (slots : Entries) :
    ∀ (flds : List FieldDef) (u : Bool) (acc : Entries) (fuel : Nat),
      allDistinct (flds.map FieldDef.name) = true →
      (∀ f ∈ flds, alookup acc f.name = none) →
      replaceLoop ev tbl slots flds u acc fuel
          = .ok (eappend acc (carriedOf slots flds))
        ∨ replaceLoop ev tbl slots flds u acc fuel = .error .fuelOut
  | _, _, _, 0, _, _ => Or.inr rfl
  | [], u, acc, n+1, _, _ => by
      left
      simp [replaceLoop, carriedOf, eappend_nil]
  | f :: rest, u, acc, n+1, hd, hacc => by
      simp [allDistinct, Bool.and_eq_true] at hd
      have haccf : alookup acc f.name = none := hacc f (List.mem_cons_self f rest)
      by_cases hi : f.init = true
      · rw [replaceLoop_cons_none ev tbl slots f rest u acc n hi haccf]
        have hacc2 : ∀ g ∈ rest,
            alookup (ainsert acc f.name ((alookup slots f.name).getD f.default))
              g.name = none := by
          intro g hg
          rw [alookup_ainsert_ne acc f.name g.name _ (hd.1 g hg)]
          exact hacc g (List.mem_cons_of_mem f hg)
        rcases replaceLoop_empty ev tbl slots rest u
            (ainsert acc f.name ((alookup slots f.name).getD f.default)) n
            hd.2 hacc2 with hok | hfo
        · left
          rw [hok, ainsert_eq_eappend acc f.name _ haccf, eappend_assoc]
          simp [carriedOf, hi, eappend, getattrSlot]
        · right
          rw [hfo]
      · have hi2 : f.init = false := by simpa using hi
        rw [replaceLoop_cons_noninit ev tbl slots f rest u acc n hi2
          (by simp [amem, haccf])]
        rcases replaceLoop_empty ev tbl slots rest u acc n hd.2
            (fun g hg => hacc g (List.mem_cons_of_mem f hg)) with hok | hfo
        · left
          rw [hok]
          simp [carriedOf, hi2]
        · right
          rw [hfo]

/-! ## C4: the frame property of replace -/

theorem construct_ok (ev : String → Except Err Val) (tbl : ClsTable) (c : String)
    (cd : ClsDef) (kw : Entries) (fuel : Nat) (y : Val)
    (hc : lookupCls tbl c = some cd)
    (h : construct ev tbl c kw fuel = .ok y) :
    ∃ n slots2, fuel = n+1 ∧ y = .inst c slots2
      ∧ constructLoop ev tbl cd.fields kw .nil n = .ok slots2 := by
  cases fuel with
  | zero => simp [construct] at h
  | succ n =>
      have hunf : construct ev tbl c kw (n+1)
          = (match lookupCls tbl c with
             | none => .error (.typeError ("class " ++ c ++ " is not constructible"))
             | some cd2 =>
                 if (!(allKeysAreInitFields cd2.fields kw)) = true then
                   .error (.typeError unexpectedKwargMsg)
                 else if missingRequired cd2.fields kw = true then
                   .error (.typeError missingArgMsg)
                 else
                   match constructLoop ev tbl cd2.fields kw .nil n with
                   | .error e => .error e
                   | .ok slots => .ok (.inst c slots)) := rfl
      rw [hunf, hc] at h
      have h2 : (if (!(allKeysAreInitFields cd.fields kw)) = true then
            (Except.error (.typeError unexpectedKwargMsg) : Except Err Val)
          else if missingRequired cd.fields kw = true then
            .error (.typeError missingArgMsg)
          else
            match constructLoop ev tbl cd.fields kw .nil n with
            | .error e => .error e
            | .ok slots => .ok (.inst c slots)) = .ok y := h
      split at h2
      · simp at h2
      · split at h2
        · simp at h2
        · cases hcl : constructLoop ev tbl cd.fields kw .nil n with
          | error e => rw [hcl] at h2; simp at h2
          | ok slots2 =>
              rw [hcl] at h2
              simp at h2
              exact ⟨n, slots2, rfl, h2.symm, hcl⟩

theorem construct_carried (ev : String → Except Err Val) (tbl : ClsTable)
    (c : String) (cd : ClsDef) (slots : Entries) (fuel : Nat)
    (hc : lookupCls tbl c = some cd)
    (hv : validInstanceB tbl cd slots = true) :
    construct ev tbl c (carriedOf slots cd.fields) fuel = .ok (.inst c slots)
    ∨ construct ev tbl c (carriedOf slots cd.fields) fuel = .error .fuelOut := by
  obtain ⟨hdist, hkeys⟩ := validInstance_struct tbl cd slots hv
  cases fuel with
  | zero => exact Or.inr rfl
  | succ n =>
      have hkw : allKeysAreInitFields cd.fields (carriedOf slots cd.fields) = true :=
        allKeys_carried cd.fields slots cd.fields (fun _ hf => hf)
      have hmr : missingRequired cd.fields (carriedOf slots cd.fields) = false :=
        missingRequired_carried slots cd.fields hdist
      have hunf : construct ev tbl c (carriedOf slots cd.fields) (n+1)
          = (match lookupCls tbl c with
             | none => .error (.typeError ("class " ++ c ++ " is not constructible"))
             | some cd2 =>
                 if (!(allKeysAreInitFields cd2.fields (carriedOf slots cd.fields))) = true then
                   .error (.typeError unexpectedKwargMsg)
                 else if missingRequired cd2.fields (carriedOf slots cd.fields) = true then
                   .error (.typeError missingArgMsg)
                 else
                   match constructLoop ev tbl cd2.fields (carriedOf slots cd.fields)
                       .nil n with
                   | .error e => .error e
                   | .ok s2 => .ok (.inst c s2)) := rfl
      have e0 : construct ev tbl c (carriedOf slots cd.fields) (n+1)
          = (match constructLoop ev tbl cd.fields (carriedOf slots cd.fields)
                .nil n with
             | .error e => .error e
             | .ok s2 => .ok (.inst c s2)) := by
        rw [hunf, hc]
        have e00 : (if (!(allKeysAreInitFields cd.fields (carriedOf slots cd.fields))) = true then
              (Except.error (.typeError unexpectedKwargMsg) : Except Err Val)
            else if missingRequired cd.fields (carriedOf slots cd.fields) = true then
              .error (.typeError missingArgMsg)
            else
              match constructLoop ev tbl cd.fields (carriedOf slots cd.fields)
                  .nil n with
              | .error e => .error e
              | .ok s2 => .ok (.inst c s2))
            = (match constructLoop ev tbl cd.fields (carriedOf slots cd.fields)
                  .nil n with
               | .error e => .error e
               | .ok s2 => .ok (.inst c s2)) := by
          rw [if_neg (by simp [hkw]), if_neg (by simp [hmr])]
        exact e00
      have hflds : ∀ f ∈ cd.fields, tyFlat f.ty = true
          ∧ validValB tbl f.ty (getattrSlot slots f) = true
          ∧ (f.init = true →
              alookup (carriedOf slots cd.fields) f.name
                = some (getattrSlot slots f))
          ∧ (f.init = false → f.default = getattrSlot slots f
               ∧ f.default ≠ Val.missing) := by
        intro f hf
        obtain ⟨hflat, v, hlk, hvv, hni⟩ := validInstance_field tbl cd slots hv f hf
        have hgv : getattrSlot slots f = v := by simp [getattrSlot, hlk]
        refine ⟨hflat, by rw [hgv]; exact hvv, ?_, ?_⟩
        · intro hi
          exact alookup_carried_some slots cd.fields f hdist hf hi
        · intro hni2
          obtain ⟨hvd, hdm⟩ := hni hni2
          exact ⟨by rw [hgv, ← hvd], hdm⟩
      have hcan : slots = canonSlots slots cd.fields :=
        slots_canonical_aux slots cd.fields slots hkeys hdist (fun _ _ => rfl)
      rcases constructLoop_all ev tbl slots cd.fields (carriedOf slots cd.fields)
          Entries.nil n hdist hflds (fun _ _ => rfl) with hok | hfo
      · left
        have hok2 : constructLoop ev tbl cd.fields (carriedOf slots cd.fields)
            Entries.nil n = .ok (canonSlots slots cd.fields) := by
          simpa [eappend] using hok
        rw [e0, hok2, ← hcan]
      · right
        rw [e0, hfo]

/-- C4: for a valid instance `x` of a hypod class, a successful
`replace(x, changes)` carries every field not named in the changes over
unchanged (`init=False` fields, which the construction path resets to
their declared default, still satisfy this because a valid instance holds
them at that default); in particular `replace(x)` with an empty change
set rebuilds an instance structurally equal to `x` (or runs out of fuel,
an artifact of the embedding with no Python counterpart). -/
theorem replace_frame (ev : String → Except Err Val) (tbl : ClsTable)
    (c : String) (cd : ClsDef) (slots changes : Entries) (f : FieldDef)
    (fuel : Nat) (y : Val)
    (hc : lookupCls tbl c = some cd)
    (hv : validInstanceB tbl cd slots = true)
    (hf : f ∈ cd.fields)
    (hnc : alookup changes f.name = none)
    (hrep : replace ev tbl (.inst c slots) true changes fuel = .ok y) :
    (∃ slots2, y = .inst c slots2
        ∧ alookup slots2 f.name = alookup slots f.name)
    ∧ ∀ fuel2, replace ev tbl (.inst c slots) true .nil fuel2
          = .ok (.inst c slots)
        ∨ replace ev tbl (.inst c slots) true .nil fuel2 = .error .fuelOut := by
  obtain ⟨hdist, hkeys⟩ := validInstance_struct tbl cd slots hv
  have hunf : ∀ (ch : Entries) (m : Nat),
      replace ev tbl (.inst c slots) true ch (m+1)
        = (match lookupCls tbl c with
           | some cd2 =>
               if cd2.isHypod = true then
                 (match replaceLoop ev tbl slots cd2.fields true ch m with
                  | .error e => .error e
                  | .ok ch2 => construct ev tbl c ch2 m)
               else .error (.typeError replaceTypeMsg)
           | none => .error (.typeError replaceTypeMsg)) := fun _ _ => rfl
  cases fuel with
  | zero => simp [replace] at hrep
  | succ n =>
      rw [hunf changes n, hc] at hrep
      have hrep2 : (if cd.isHypod = true then
            (match replaceLoop ev tbl slots cd.fields true changes n with
             | .error e => .error e
             | .ok ch2 => construct ev tbl c ch2 n)
          else (.error (.typeError replaceTypeMsg) : Except Err Val)) = .ok y := hrep
      by_cases hH : cd.isHypod = true
      case neg => rw [if_neg hH] at hrep2; simp at hrep2
      rw [if_pos hH] at hrep2
      cases hloop : replaceLoop ev tbl slots cd.fields true changes n with
      | error e => rw [hloop] at hrep2; simp at hrep2
      | ok ch2 =>
          rw [hloop] at hrep2
          have hcons : construct ev tbl c ch2 n = .ok y := hrep2
          obtain ⟨m, slots2, hm, hy, hcl⟩ := construct_ok ev tbl c cd ch2 n y hc hcons
          constructor
          · refine ⟨slots2, hy, ?_⟩
            obtain ⟨hflat, v, hlk, hvv, hni⟩ := validInstance_field tbl cd slots hv f hf
            have hgv : getattrSlot slots f = v := by simp [getattrSlot, hlk]
            by_cases hi : f.init = true
            · have hcar := replaceLoop_carry ev tbl slots cd.fields true changes n
                ch2 f hloop hdist hf hi hnc
              have h5 := constructLoop_lookup_init ev tbl cd.fields ch2 Entries.nil
                m slots2 f (getattrSlot slots f) hcl hdist hf hi hcar
                (by rw [hgv]; exact hvv) hflat
              rw [h5, hlk, hgv]
            · have hi2 : f.init = false := by simpa using hi
              obtain ⟨hvd, hdm⟩ := hni hi2
              have hskip := replaceLoop_skip ev tbl slots cd.fields true changes n
                ch2 f hloop hdist hf hi2 hnc
              have h5 := constructLoop_lookup_noninit ev tbl cd.fields ch2
                Entries.nil m slots2 f hcl hdist hf hi2 hdm
              rw [h5, hlk, hvd]
          · intro fuel2
            cases fuel2 with
            | zero => exact Or.inr rfl
            | succ m2 =>
                have e1 : replace ev tbl (.inst c slots) true .nil (m2+1)
                    = (match replaceLoop ev tbl slots cd.fields true .nil m2 with
                       | .error e => .error e
                       | .ok ch3 => construct ev tbl c ch3 m2) := by
                  rw [hunf Entries.nil m2, hc]
                  exact if_pos hH
                rcases replaceLoop_empty ev tbl slots cd.fields true Entries.nil m2
                    hdist (fun _ _ => rfl) with hok | hfo
                · have hok2 : replaceLoop ev tbl slots cd.fields true Entries.nil m2
                      = .ok (carriedOf slots cd.fields) := by
                    simpa [eappend] using hok
                  rcases construct_carried ev tbl c cd slots m2 hc hv with hcc | hcc
                  · left
                    rw [e1, hok2]
                    exact hcc
                  · right
                    rw [e1, hok2]
                    exact hcc
                · right
                  rw [e1, hfo]

/-- Witness for C4 at a concrete input: merging `{out_features: 9}` into
a valid `LayerHP` instance leaves `in_features` untouched, and the empty
merge rebuilds the instance. -/
theorem replace_frame_w :
    (∃ slots2, Val.inst "LayerHP" (Entries.cons "in_features" (.int 1)
          (.cons "out_features" (.int 9) .nil)) = Val.inst "LayerHP" slots2
        ∧ alookup slots2 "in_features" = alookup exLayer "in_features")
    ∧ (replace evF exTbl (.inst "LayerHP" exLayer) true .nil 9
          = .ok (.inst "LayerHP" exLayer)
        ∨ replace evF exTbl (.inst "LayerHP" exLayer) true .nil 9
          = .error .fuelOut) := by
  have h := replace_frame evF exTbl "LayerHP" exLayerCls exLayer
    (.cons "out_features" (.int 9) .nil) ⟨"in_features", .tint, .int 1, true⟩ 9
    (.inst "LayerHP" (.cons "in_features" (.int 1)
      (.cons "out_features" (.int 9) .nil)))
    rfl rfl (List.mem_cons_self _ _) rfl rfl
  exact ⟨h.1, h.2 9⟩

end Hypod
